import Mathlib

/-!
Verification of the fitness-tracker core: the workout-session state machine
(`store/fitness/workoutStore.ts`, here `startWorkout`, `addExerciseToWorkout`,
`addSetToExercise`, `completeWorkout`), the set validator and set model
(`store/fitness/models/Set.ts`), the workout service (`services/WorkoutService.ts`)
and the progress analytics engine (`services/ProgressService.ts`).

Modelling conventions:
* JS `number` is modelled as `ℚ` (the code never relies on float rounding on the
  verified paths; rational division differs from JS only at division by zero,
  where JS yields `Infinity`/`NaN` and `ℚ` yields `0` — noted where relevant).
* `Date` values are their millisecond timestamps (`ℚ`), as produced by `getTime()`.
* The ambient values the code reads (fresh ids, `new Date()` clock readings,
  generated default names) are passed as explicit parameters.
* `AsyncStorage` is a pair of slots inside `StoreState`; a `storeOk : Bool`
  parameter says whether the awaited write succeeds.  A failed write throws,
  which the source `catch` blocks turn into an error message on the store.
* Zustand's `set`/`get` become explicit state passing on `StoreState`.
-/

namespace Fitness

/-- Model of `Set` from `store/fitness/models.ts` (one recorded set). -/
structure Set where
  reps : ℚ
  weight : ℚ
  completed : Bool
  restTime : ℚ
deriving DecidableEq

/-- Model of `SetInput` from `store/fitness/models.ts` (`completed` is optional). -/
structure SetInput where
  reps : ℚ
  weight : ℚ
  completed : Option Bool
deriving DecidableEq

/-- Model of `WorkoutExercise` from `store/fitness/models.ts`. -/
structure WorkoutExercise where
  exerciseId : String
  sets : List Set
  restTime : ℚ
  notes : String
deriving DecidableEq

/-- Model of `Workout` from `store/fitness/models.ts`; `endTime = none` while active. -/
structure Workout where
  id : String
  name : String
  startTime : ℚ
  endTime : Option ℚ
  exercises : List WorkoutExercise
  notes : String
deriving DecidableEq

/-- Model of `Exercise` from `store/fitness/models.ts` (catalog entry). -/
structure Exercise where
  id : String
  name : String
  muscleGroups : List String
  equipment : List String
  category : String
  instructions : String
  imageUrl : String
deriving DecidableEq

/-- JavaScript `a || b` on strings: the empty string is falsy. -/
def jsOr (a : String) (b : String) : String :=
  if a = "" then b else a

/-- State of the Zustand workout store (`workoutStore.ts`) together with the two
`AsyncStorage` slots it persists to (`fitness:currentWorkout`, `fitness:workoutHistory`). -/
structure StoreState where
  currentWorkout : Option Workout
  workoutHistory : List Workout
  isLoading : Bool
  error : Option String
  storedCurrent : Option Workout
  storedHistory : List Workout
deriving DecidableEq

def msgFailStart : String := "Failed to start workout"
def msgDuplicateExercise : String := "Exercise already added to workout"
def msgFailAddExercise : String := "Failed to add exercise to workout"
def msgFailAddSet : String := "Failed to add set to exercise"
def msgEmptyWorkout : String := "Cannot complete workout with no exercises"
def msgFailComplete : String := "Failed to complete workout"

/-- Source: `workoutStore.ts` lines 63-83 (`startWorkout`).  The fresh id, the
caller-supplied optional name, the generated default name and the clock reading
are parameters.  Note the source never inspects `currentWorkout`: it
unconditionally overwrites it with the fresh workout. -/
def startWorkout (st : StoreState) (newId : String) (name : Option String)
    (defaultName : String) (now : ℚ) (storeOk : Bool) : StoreState :=
  let newWorkout : Workout :=
    { id := newId
      name := match name with
              | some n => jsOr n defaultName
              | none => defaultName
      startTime := now
      endTime := none
      exercises := []
      notes := "" }
  if storeOk then
    { st with currentWorkout := some newWorkout, storedCurrent := some newWorkout,
              isLoading := false, error := none }
  else
    { st with currentWorkout := some newWorkout,
              isLoading := false, error := some msgFailStart }

/-- Source: `workoutStore.ts` lines 85-116 (`addExerciseToWorkout`). -/
def addExerciseToWorkout (st : StoreState) (exerciseId : String) (storeOk : Bool) :
    StoreState :=
  match st.currentWorkout with
  | none => { st with error := some msgFailAddExercise }
  | some w =>
    if w.exercises.any (fun e => e.exerciseId == exerciseId) then
      { st with error := some msgDuplicateExercise }
    else
      let newExercise : WorkoutExercise :=
        { exerciseId := exerciseId, sets := [], restTime := 120, notes := "" }
      let w' := { w with exercises := w.exercises ++ [newExercise] }
      if storeOk then
        { st with currentWorkout := some w', storedCurrent := some w' }
      else
        { st with currentWorkout := some w', error := some msgFailAddExercise }

/-- Source: `workoutStore.ts` lines 118-153 (`addSetToExercise`).  The in-memory
state is updated BEFORE the storage write is awaited; the set is appended with
no validation of `reps`/`weight`, and `completed` defaults to `true` (`??`). -/
def addSetToExercise (st : StoreState) (exerciseId : String) (setInput : SetInput)
    (storeOk : Bool) : StoreState :=
  match st.currentWorkout with
  | none => { st with error := some msgFailAddSet }
  | some w =>
    match w.exercises.findIdx? (fun e => e.exerciseId == exerciseId) with
    | none => { st with error := some msgFailAddSet }
    | some i =>
      let newSet : Set :=
        { reps := setInput.reps, weight := setInput.weight,
          completed := setInput.completed.getD true, restTime := 0 }
      let exerciseData := w.exercises.getD i
        { exerciseId := "", sets := [], restTime := 0, notes := "" }
      let updatedExercises := w.exercises.set i
        { exerciseData with sets := exerciseData.sets ++ [newSet] }
      let w' := { w with exercises := updatedExercises }
      if storeOk then
        { st with currentWorkout := some w', storedCurrent := some w' }
      else
        { st with currentWorkout := some w', error := some msgFailAddSet }

/-- Source: `workoutStore.ts` lines 224-259 (`completeWorkout`).  The completed
workout is prepended to the in-memory history and the in-memory state is updated
BEFORE the two storage writes are awaited. -/
def completeWorkout (st : StoreState) (now : ℚ) (storeOk : Bool) : StoreState :=
  match st.currentWorkout with
  | none => { st with error := some msgFailComplete, isLoading := false }
  | some w =>
    if w.exercises.length = 0 then
      { st with error := some msgEmptyWorkout, isLoading := false }
    else
      let completedWorkout := { w with endTime := some now }
      let updatedHistory := completedWorkout :: st.workoutHistory
      if storeOk then
        { st with currentWorkout := none, workoutHistory := updatedHistory,
                  storedCurrent := none, storedHistory := updatedHistory,
                  isLoading := false, error := none }
      else
        { st with currentWorkout := none, workoutHistory := updatedHistory,
                  isLoading := false, error := some msgFailComplete }

/-- Model of `Partial<Set>` (every field optional), the input of `SetValidator.validate`. -/
structure PartialSet where
  reps : Option ℚ
  weight : Option ℚ
  completed : Option Bool
  restTime : Option ℚ
deriving DecidableEq

/-- JavaScript truthiness of a possibly-missing number: `undefined`, and `0`, are falsy. -/
def jsTruthy (v : Option ℚ) : Bool :=
  match v with
  | none => false
  | some q => q != 0

namespace SetValidator

/-- Source: `models/Set.ts` lines 9-46 (`SetValidator.validate`), error list in push
order.  `typeof x !== 'number'` is `Option.isNone` here (the model is well-typed, so
the NaN/string cases collapse into absence); `Number.isInteger` is `Rat.isInt`.
The `completed` type check can never fire on a well-typed input and is omitted.
The range checks are guarded by JS truthiness of the field (`set.reps && ...`). -/
def validateErrors (s : PartialSet) : List String :=
  (match s.reps with
   | none => ["Reps must be a positive integer"]
   | some r => if r ≤ 0 ∨ ¬ r.isInt then ["Reps must be a positive integer"] else []) ++
  (match s.weight with
   | none => ["Weight must be a non-negative number"]
   | some w => if w < 0 then ["Weight must be a non-negative number"] else []) ++
  (match s.restTime with
   | none => ["Rest time must be a non-negative number"]
   | some rt => if rt < 0 then ["Rest time must be a non-negative number"] else []) ++
  (if jsTruthy s.reps ∧ s.reps.getD 0 > 1000 then ["Reps must be less than 1000"] else []) ++
  (if jsTruthy s.weight ∧ s.weight.getD 0 > 10000 then
    ["Weight must be less than 10000 kg/lbs"] else []) ++
  (if jsTruthy s.restTime ∧ s.restTime.getD 0 > 7200 then
    ["Rest time must be less than 2 hours (7200 seconds)"] else [])

/-- Result field `isValid` of `SetValidator.validate`: the error list is empty. -/
def isValid (s : PartialSet) : Bool :=
  (validateErrors s).isEmpty

end SetValidator

namespace SetModel

/-- Source: `models/Set.ts` lines 98-104 (`SetModel.getEstimatedOneRepMax`), the
Brzycki estimate with the documented guard "Formula breaks down beyond 36 reps". -/
def getEstimatedOneRepMax (s : Set) : ℚ :=
  if s.reps = 1 then s.weight
  else if s.reps > 36 then s.weight
  else s.weight * (36 / (37 - s.reps))

/-- Source: `models/Set.ts` lines 94-96 (`SetModel.getVolume`). -/
def getVolume (s : Set) : ℚ :=
  s.reps * s.weight

end SetModel

/-- Descending-by-startTime comparison used by `WorkoutService.getWorkoutHistory`
(`history.sort((a, b) => b.startTime.getTime() - a.startTime.getTime())`). -/
def startTimeDesc (a b : Workout) : Prop :=
  b.startTime ≤ a.startTime

instance : DecidableRel startTimeDesc := fun a b =>
  inferInstanceAs (Decidable (b.startTime ≤ a.startTime))

instance : IsTotal Workout startTimeDesc :=
  ⟨fun a b => le_total b.startTime a.startTime⟩

instance : IsTrans Workout startTimeDesc :=
  ⟨fun _ _ _ h1 h2 => le_trans h2 h1⟩

namespace WorkoutService

/-- Source: `services/WorkoutService.ts` lines 174-199 (`getWorkoutHistory`): sort the
stored history by start time descending (most recent first), then apply pagination
(`const end = limit ? start + limit : undefined; history.slice(start, end)`).  JS
`Array.prototype.sort` is a stable sort; it is modelled by the stable
`List.insertionSort`.  A passed limit of `0` is falsy in JS, so `end` is `undefined`
and the whole remaining tail is returned, hence the extra `l = 0` branch. -/
def getWorkoutHistory (stored : List Workout) (limit : Option ℕ) (offset : Option ℕ) :
    List Workout :=
  let history := List.insertionSort startTimeDesc stored
  let start := offset.getD 0
  match limit with
  | some l => if l = 0 then history.drop start else (history.drop start).take l
  | none => history.drop start

end WorkoutService

/-- Model of `TimeRange` from `store/fitness/models.ts`. -/
structure TimeRange where
  startDate : ℚ
  endDate : ℚ
deriving DecidableEq

/-- Model of `ProgressMetrics` from `store/fitness/models.ts`. -/
structure ProgressMetrics where
  exerciseId : String
  exerciseName : String
  oneRepMax : ℚ
  totalVolume : ℚ
  averageWeight : ℚ
  totalSets : ℕ
  totalReps : ℚ
  progressPercentage : ℚ
deriving DecidableEq

/-- Trend direction union type `'up' | 'down' | 'stable'`. -/
inductive Trend where
  | up
  | down
  | stable
deriving DecidableEq

/-- Model of `StrengthPoint` from `store/fitness/models.ts`. -/
structure StrengthPoint where
  date : ℚ
  weight : ℚ
  oneRepMax : ℚ
  volume : ℚ
deriving DecidableEq

/-- Model of `StrengthProgression` from `store/fitness/models.ts`. -/
structure StrengthProgression where
  exerciseId : String
  exerciseName : String
  dataPoints : List StrengthPoint
  trendDirection : Trend
  progressRate : ℚ
deriving DecidableEq

/-- Model of `PersonalRecord` from `store/fitness/models.ts`. -/
structure PersonalRecord where
  exerciseId : String
  exerciseName : String
  maxWeight : ℚ
  maxReps : ℚ
  maxVolume : ℚ
  oneRepMax : ℚ
  achievedDate : ℚ
deriving DecidableEq

/-- Model of `FrequencyData` from `store/fitness/models.ts`. -/
structure FrequencyData where
  totalWorkouts : ℕ
  averagePerWeek : ℚ
  longestStreak : ℕ
  currentStreak : ℕ
  workoutDates : List ℚ
deriving DecidableEq

/-- Source: `services/ExerciseService.ts` lines 42-46 (`getExerciseById`): find by id
in the loaded catalog, `null` when absent.  The catalog list is a parameter. -/
def getExerciseById (catalog : List Exercise) (exerciseId : String) : Option Exercise :=
  catalog.find? (fun e => e.id == exerciseId)

namespace ProgressService

/-- Ascending-by-date comparison used for `dataPoints.sort((a, b) => a.date - b.date)`. -/
def dateAsc (a b : StrengthPoint) : Prop :=
  a.date ≤ b.date

instance : DecidableRel dateAsc := fun a b =>
  inferInstanceAs (Decidable (a.date ≤ b.date))

/-- Ascending-by-startTime comparison used for `workouts.sort((a, b) => a.startTime - b.startTime)`. -/
def startTimeAsc (a b : Workout) : Prop :=
  a.startTime ≤ b.startTime

instance : DecidableRel startTimeAsc := fun a b =>
  inferInstanceAs (Decidable (a.startTime ≤ b.startTime))

/-- Source: `services/ProgressService.ts` lines 297-304 (`getWorkoutsInTimeRange`):
load the full history (sorted most-recent-first) and keep completed workouts whose
start time lies in the inclusive range. -/
def getWorkoutsInTimeRange (stored : List Workout) (timeRange : TimeRange) :
    List Workout :=
  (WorkoutService.getWorkoutHistory stored none none).filter fun w =>
    decide (timeRange.startDate ≤ w.startTime) &&
    decide (w.startTime ≤ timeRange.endDate) &&
    w.endTime.isSome

/-- The inline Brzycki expression of `ProgressService`
(`set.reps === 1 ? set.weight : set.weight * (36 / (37 - set.reps))`, lines 72, 133
and 264).  Unlike `SetModel.getEstimatedOneRepMax` it has NO `reps > 36` guard.
In `ℚ`, `reps = 37` gives `36 / 0 = 0` where JS gives `Infinity`; no theorem below
evaluates it at `reps = 37`. -/
def inlineOneRepMax (reps weight : ℚ) : ℚ :=
  if reps = 1 then weight else weight * (36 / (37 - reps))

/-- Source: `services/ProgressService.ts` lines 306-322 (`calculateProgressPercentage`).
`Math.max(...)` over the weights of a set list is `none` for an empty list (JS yields
`-Infinity` there; the only divergence is the case of a nonempty first set list and an
empty last one, where JS returns `-Infinity` and this model returns `0`; no theorem
depends on that case). -/
def calculateProgressPercentage (workouts : List Workout) (exerciseId : String) : ℚ :=
  if workouts.length < 2 then 0
  else
    let sorted := List.insertionSort startTimeAsc workouts
    match sorted.head?, sorted.getLast? with
    | some firstWorkout, some lastWorkout =>
      match firstWorkout.exercises.find? (fun e => e.exerciseId == exerciseId),
            lastWorkout.exercises.find? (fun e => e.exerciseId == exerciseId) with
      | some firstExercise, some lastExercise =>
        match (firstExercise.sets.map (fun s => s.weight)).max?,
              (lastExercise.sets.map (fun s => s.weight)).max? with
        | some firstMaxWeight, some lastMaxWeight =>
          if firstMaxWeight > 0 then
            (lastMaxWeight - firstMaxWeight) / firstMaxWeight * 100
          else 0
        | _, _ => 0
      | _, _ => 0
    | _, _ => 0

/-- Source: `services/ProgressService.ts` lines 30-96 (`getExerciseProgress`).
Throws (here `Except.error`) when the catalog has no entry for the id; returns an
all-zero metrics object when no workout in range contains the exercise; otherwise
accumulates over the sets of the first matching exercise entry of each workout. -/
def getExerciseProgress (catalog : List Exercise) (stored : List Workout)
    (exerciseId : String) (timeRange : TimeRange) : Except String ProgressMetrics :=
  let workouts := getWorkoutsInTimeRange stored timeRange
  match getExerciseById catalog exerciseId with
  | none =>
    .error ("Failed to get exercise progress: Exercise with ID " ++ exerciseId ++
      " not found")
  | some exercise =>
    let exerciseWorkouts := workouts.filter fun w =>
      w.exercises.any (fun e => e.exerciseId == exerciseId)
    if exerciseWorkouts.isEmpty then
      .ok { exerciseId := exerciseId, exerciseName := exercise.name, oneRepMax := 0,
            totalVolume := 0, averageWeight := 0, totalSets := 0, totalReps := 0,
            progressPercentage := 0 }
    else
      let sets := exerciseWorkouts.flatMap fun w =>
        match w.exercises.find? (fun e => e.exerciseId == exerciseId) with
        | some exerciseData => exerciseData.sets
        | none => []
      let totalSets := sets.length
      let totalReps := (sets.map (fun s => s.reps)).sum
      let totalWeight := (sets.map (fun s => s.weight)).sum
      let totalVolume := (sets.map (fun s => s.reps * s.weight)).sum
      let maxOneRepMax := sets.foldl (fun m s => max m (inlineOneRepMax s.reps s.weight)) 0
      let averageWeight := if totalSets > 0 then totalWeight / totalSets else 0
      .ok { exerciseId := exerciseId, exerciseName := exercise.name,
            oneRepMax := maxOneRepMax, totalVolume := totalVolume,
            averageWeight := averageWeight, totalSets := totalSets,
            totalReps := totalReps,
            progressPercentage := calculateProgressPercentage exerciseWorkouts exerciseId }

/-- Source: `services/ProgressService.ts` lines 358-369 (`calculateTrendDirection`).
In `ℚ`, a zero first value makes `change = 0` (JS gives `Infinity`/`NaN`); no theorem
below evaluates that case. -/
def calculateTrendDirection (values : List ℚ) : Trend :=
  if values.length < 2 then .stable
  else
    let firstValue := values.headD 0
    let lastValue := values.getLastD 0
    let change := (lastValue - firstValue) / firstValue
    if change > 5 / 100 then .up
    else if change < -(5 / 100) then .down
    else .stable

/-- Source: `services/ProgressService.ts` lines 371-384 (`calculateProgressRate`). -/
def calculateProgressRate (dataPoints : List StrengthPoint) : ℚ :=
  if dataPoints.length < 2 then 0
  else
    let sorted := List.insertionSort dateAsc dataPoints
    match sorted.head?, sorted.getLast? with
    | some firstPoint, some lastPoint =>
      let timeDiffWeeks := (lastPoint.date - firstPoint.date) / (1000 * 60 * 60 * 24 * 7)
      if timeDiffWeeks > 0 ∧ firstPoint.oneRepMax > 0 then
        (lastPoint.oneRepMax - firstPoint.oneRepMax) / firstPoint.oneRepMax /
          timeDiffWeeks * 100
      else 0
    | _, _ => 0

/-- Source: `services/ProgressService.ts` lines 243-294 (`getStrengthProgression`).
Throws (here `Except.error`) when the catalog has no entry for the id. -/
def getStrengthProgression (catalog : List Exercise) (stored : List Workout)
    (exerciseId : String) (timeRange : TimeRange) : Except String StrengthProgression :=
  let workouts := getWorkoutsInTimeRange stored timeRange
  match getExerciseById catalog exerciseId with
  | none =>
    .error ("Failed to get strength progression: Exercise with ID " ++ exerciseId ++
      " not found")
  | some exercise =>
    let dataPoints := workouts.filterMap fun w =>
      match w.exercises.find? (fun e => e.exerciseId == exerciseId) with
      | some exerciseData =>
        if exerciseData.sets.isEmpty then none
        else
          some { date := w.startTime
                 weight := exerciseData.sets.foldl (fun m s => max m s.weight) 0
                 oneRepMax := exerciseData.sets.foldl
                   (fun m s => max m (inlineOneRepMax s.reps s.weight)) 0
                 volume := (exerciseData.sets.map (fun s => s.reps * s.weight)).sum }
      | none => none
    let sortedPoints := List.insertionSort dateAsc dataPoints
    .ok { exerciseId := exerciseId, exerciseName := exercise.name,
          dataPoints := sortedPoints,
          trendDirection := calculateTrendDirection (sortedPoints.map (fun p => p.oneRepMax)),
          progressRate := calculateProgressRate sortedPoints }

end ProgressService

/-- Model of the JS `Map<string, PersonalRecord>` used by `getPersonalRecords`:
an insertion-ordered association list.  `Map.prototype.set` on an existing key
overwrites in place; on a new key it appends. -/
abbrev RecordMap := List (String × PersonalRecord)

/-- JS `map.get(k)` (`undefined` when absent). -/
def mapGet? (m : RecordMap) (k : String) : Option PersonalRecord :=
  (List.find? (fun p => p.1 == k) m).map (fun p => p.2)

/-- JS `map.set(k, v)`: overwrite in place when the key is present, append otherwise. -/
def mapSet (m : RecordMap) (k : String) (v : PersonalRecord) : RecordMap :=
  if List.any m (fun p => p.1 == k) then
    List.map (fun p => if p.1 == k then (k, v) else p) m
  else
    m ++ [(k, v)]

/-- The `exercise?.name || exerciseData.exerciseId` fallback of
`services/ProgressService.ts` line 145 (JS `||`: a missing match and an empty
name both fall back to the raw id). -/
def recordName (catalog : List Exercise) (exerciseId : String) : String :=
  match getExerciseById catalog exerciseId with
  | some exercise => jsOr exercise.name exerciseId
  | none => exerciseId

/-- The guard of the `getPersonalRecords` inner loop: some dimension of the set
strictly exceeds the current record. -/
def recordTrigger (currentRecord : PersonalRecord) (s : Set) : Prop :=
  s.weight > currentRecord.maxWeight ∨ s.reps > currentRecord.maxReps ∨
    s.reps * s.weight > currentRecord.maxVolume ∨
    ProgressService.inlineOneRepMax s.reps s.weight > currentRecord.oneRepMax

instance (currentRecord : PersonalRecord) (s : Set) :
    Decidable (recordTrigger currentRecord s) := by
  unfold recordTrigger
  infer_instance

/-- The record stored when no record exists yet for the exercise
(`Math.max(currentRecord?.dim || 0, new)` with `currentRecord` undefined). -/
def freshRecord (catalog : List Exercise) (date : ℚ) (exerciseId : String) (s : Set) :
    PersonalRecord :=
  { exerciseId := exerciseId, exerciseName := recordName catalog exerciseId,
    maxWeight := max 0 s.weight, maxReps := max 0 s.reps,
    maxVolume := max 0 (s.reps * s.weight),
    oneRepMax := max 0 (ProgressService.inlineOneRepMax s.reps s.weight),
    achievedDate := date }

/-- The record stored when the guard fires on an existing record
(`Math.max(currentRecord.dim, new)` in each dimension, `achievedDate` overwritten). -/
def bumpRecord (catalog : List Exercise) (date : ℚ) (exerciseId : String)
    (currentRecord : PersonalRecord) (s : Set) : PersonalRecord :=
  { exerciseId := exerciseId, exerciseName := recordName catalog exerciseId,
    maxWeight := max currentRecord.maxWeight s.weight,
    maxReps := max currentRecord.maxReps s.reps,
    maxVolume := max currentRecord.maxVolume (s.reps * s.weight),
    oneRepMax := max currentRecord.oneRepMax
      (ProgressService.inlineOneRepMax s.reps s.weight),
    achievedDate := date }

/-- Source: `services/ProgressService.ts` lines 131-153, the body of the innermost
`for (const set of exerciseData.sets)` loop of `getPersonalRecords`: when any of the
four dimensions strictly exceeds `currentRecord` (or `currentRecord` is undefined),
store a record whose four values are `Math.max(currentRecord?.dim || 0, new)` and
whose single `achievedDate` is this workout's start time.  IMPORTANT: in the source,
`currentRecord` is bound by `const currentRecord = exerciseRecords.get(...)` at line
129, ONCE PER EXERCISE ENTRY and BEFORE this loop — every set of the entry is
compared and joined against that stale read, not against the evolving map, so it is
a parameter here, not a fresh `mapGet?`. -/
def processSet (catalog : List Exercise) (date : ℚ) (exerciseId : String) :
    Option PersonalRecord → RecordMap → Set → RecordMap
  | none, m, s => mapSet m exerciseId (freshRecord catalog date exerciseId s)
  | some currentRecord, m, s =>
    if recordTrigger currentRecord s then
      mapSet m exerciseId (bumpRecord catalog date exerciseId currentRecord s)
    else m

/-- Source: `services/ProgressService.ts` lines 128-155, the middle loop body of
`getPersonalRecords` for one exercise entry: read the current record once
(`const currentRecord = exerciseRecords.get(exerciseData.exerciseId)`, line 129),
then run the set loop against that stale read. -/
def entryFold (catalog : List Exercise) (date : ℚ) (m : RecordMap)
    (exerciseData : WorkoutExercise) : RecordMap :=
  exerciseData.sets.foldl
    (processSet catalog date exerciseData.exerciseId
      (mapGet? m exerciseData.exerciseId)) m

/-- The `for (const exerciseData of workout.exercises)` loop of `getPersonalRecords`
over one workout. -/
def workoutFold (catalog : List Exercise) (m : RecordMap) (w : Workout) : RecordMap :=
  w.exercises.foldl (entryFold catalog w.startTime) m

/-- The three nested `for` loops of `getPersonalRecords` over workouts, exercise
entries and sets, threading the record map. -/
def recordsFold (catalog : List Exercise) (workouts : List Workout) (m : RecordMap) :
    RecordMap :=
  workouts.foldl (workoutFold catalog) m

/-- The surviving write of one exercise entry's set loop at the watched key, as a
function of the stale `currentRecord` read at entry start; `none` when no set of
the entry writes.  With no stale record every set fires, so the LAST set's fresh
record is the one left in the map; with a stale record, the last set to fire
against it leaves a bump of the STALE record (each write joins with the stale read,
not with the previous write, so earlier writes of the same entry are overwritten). -/
def resRec (catalog : List Exercise) (date : ℚ) (exerciseId : String) :
    Option PersonalRecord → List Set → Option PersonalRecord
  | none, sets => sets.getLast?.map (freshRecord catalog date exerciseId)
  | some cr, sets =>
    ((sets.filter (fun s => decide (recordTrigger cr s))).getLast?).map
      (bumpRecord catalog date exerciseId cr)

/-- The record at the watched key after one entry's set loop: the surviving write
when there is one, else the entering record. -/
def entryRec (catalog : List Exercise) (date : ℚ) (exerciseId : String)
    (currentRecord : Option PersonalRecord) (sets : List Set) : Option PersonalRecord :=
  (resRec catalog date exerciseId currentRecord sets).or currentRecord

/-- `entryRec` reformulated on the REVERSED set list (last set first): used to
reason about the last firing set by structural induction. -/
def entryRecR (catalog : List Exercise) (date : ℚ) (exerciseId : String) :
    Option PersonalRecord → List Set → Option PersonalRecord
  | none, lr => lr.head?.map (freshRecord catalog date exerciseId)
  | some cr, lr =>
    match lr.find? (fun s => decide (recordTrigger cr s)) with
    | some t => some (bumpRecord catalog date exerciseId cr t)
    | none => some cr

/-- Pointwise order on the four numeric record dimensions. -/
def recLE (r1 r2 : PersonalRecord) : Prop :=
  r1.maxWeight ≤ r2.maxWeight ∧ r1.maxReps ≤ r2.maxReps ∧
    r1.maxVolume ≤ r2.maxVolume ∧ r1.oneRepMax ≤ r2.oneRepMax

/-- Order on optional records: an absent record is below everything, a present
record is never below an absent one. -/
def optRecLE : Option PersonalRecord → Option PersonalRecord → Prop
  | none, _ => True
  | some _, none => False
  | some r1, some r2 => recLE r1 r2

/-- All four numeric dimensions of a record are non-negative. -/
def recNonneg (r : PersonalRecord) : Prop :=
  0 ≤ r.maxWeight ∧ 0 ≤ r.maxReps ∧ 0 ≤ r.maxVolume ∧ 0 ≤ r.oneRepMax

/-- Keywise order between two record maps. -/
def mapLE (m1 m2 : RecordMap) : Prop :=
  ∀ k, optRecLE (mapGet? m1 k) (mapGet? m2 k)

/-- Every record held in the map is dimension-wise non-negative. -/
def mapNonneg (m : RecordMap) : Prop :=
  ∀ p ∈ m, recNonneg p.2

namespace ProgressService

/-- Source: `services/ProgressService.ts` lines 122-161 (`getPersonalRecords`): scan
ALL history (no time range); the history is `getWorkoutHistory()`, i.e. sorted most
recent first, so the scan runs newest to oldest. -/
def getPersonalRecords (catalog : List Exercise) (stored : List Workout) :
    List PersonalRecord :=
  let allWorkouts := WorkoutService.getWorkoutHistory stored none none
  (recordsFold catalog allWorkouts []).map (fun p => p.2)

/-- Source: `services/ProgressService.ts` lines 331-340, the `for` loop of
`calculateStreaks`: walk consecutive date pairs; a gap of at most 7 days
(`|diff in ms| / 86400000 <= 7`) extends `tempStreak`, otherwise the run closes into
`longestStreak` and `tempStreak` restarts at 1. -/
def streakLoop (prev : ℚ) (longestStreak tempStreak : ℕ) : List ℚ → ℕ × ℕ
  | [] => (longestStreak, tempStreak)
  | d :: ds =>
    if |d - prev| / 86400000 ≤ 7 then streakLoop d longestStreak (tempStreak + 1) ds
    else streakLoop d (max longestStreak tempStreak) 1 ds

/-- Source: `services/ProgressService.ts` lines 324-356 (`calculateStreaks`).
`workoutDates` is the ascending-sorted date list built by `getWorkoutFrequency`.
IMPORTANT: in the source, `now` is read as `new Date()` INSIDE this function
(line 345), an ambient clock read; it is a parameter here because the model is pure. -/
def calculateStreaks (workoutDates : List ℚ) (now : ℚ) : ℕ × ℕ :=
  match workoutDates with
  | [] => (0, 0)
  | d :: ds =>
    let lt := streakLoop d 1 1 ds
    let longestStreak := max lt.1 lt.2
    let mostRecentWorkout := (d :: ds).getLast (List.cons_ne_nil d ds)
    let daysSinceLastWorkout := (now - mostRecentWorkout) / 86400000
    let currentStreak := if daysSinceLastWorkout ≤ 7 then lt.2 else 0
    (longestStreak, currentStreak)

/-- Ascending comparison on dates used for `workoutDates.sort((a, b) => a - b)`. -/
def qAsc (a b : ℚ) : Prop :=
  a ≤ b

instance : DecidableRel qAsc := fun a b =>
  inferInstanceAs (Decidable (a ≤ b))

/-- Source: `services/ProgressService.ts` lines 98-120 (`getWorkoutFrequency`).
The `now` parameter is the ambient clock reading consumed by `calculateStreaks`. -/
def getWorkoutFrequency (stored : List Workout) (timeRange : TimeRange) (now : ℚ) :
    FrequencyData :=
  let workouts := getWorkoutsInTimeRange stored timeRange
  let workoutDates := List.insertionSort qAsc (workouts.map (fun w => w.startTime))
  let totalWorkouts := workouts.length
  let totalDays : ℤ := ⌈(timeRange.endDate - timeRange.startDate) / 86400000⌉
  let totalWeeks : ℚ := (totalDays : ℚ) / 7
  let averagePerWeek := if totalWeeks > 0 then (totalWorkouts : ℚ) / totalWeeks else 0
  let s := calculateStreaks workoutDates now
  { totalWorkouts := totalWorkouts, averagePerWeek := averagePerWeek,
    longestStreak := s.1, currentStreak := s.2, workoutDates := workoutDates }

end ProgressService

/-- Modelled from the spec (§4.2, streak algorithm), the declarative side of the
refinement: split an ascending date list into maximal runs, cutting wherever the
gap between consecutive dates exceeds 7 days (7 days = `7 * 86400000` ms). -/
def splitRuns : List ℚ → List (List ℚ)
  | [] => []
  | [d] => [[d]]
  | d :: e :: ds =>
    match splitRuns (e :: ds) with
    | [] => [[d]]
    | r :: rs =>
      if e - d ≤ 7 * 86400000 then (d :: r) :: rs else [d] :: r :: rs

/-- Modelled from the spec (§4.2): `longestStreak` is the maximum run length,
`currentStreak` is the length of the final run when the most recent session is
within 7 days of `now`, else 0. -/
def streaksSpec (dates : List ℚ) (now : ℚ) : ℕ × ℕ :=
  match splitRuns dates with
  | [] => (0, 0)
  | r :: rs =>
    let runLengths := (r :: rs).map List.length
    let longest := runLengths.foldr max 0
    let current :=
      if now - dates.getLastD 0 ≤ 7 * 86400000 then
        ((r :: rs).getLast (List.cons_ne_nil r rs)).length
      else 0
    (longest, current)

/-! Concrete fixtures used by witnesses and counterexamples. -/

/-- Exercise entry for a bench-press with no recorded sets yet. -/
def benchEntry : WorkoutExercise :=
  { exerciseId := "bench", sets := [], restTime := 120, notes := "" }

/-- An active (not yet completed) workout containing the bench entry. -/
def activeWorkout : Workout :=
  { id := "w1", name := "Morning", startTime := 0, endTime := none,
    exercises := [benchEntry], notes := "" }

/-- Store state with `activeWorkout` active and persisted, empty history. -/
def activeState : StoreState :=
  { currentWorkout := some activeWorkout, workoutHistory := [], isLoading := false,
    error := none, storedCurrent := some activeWorkout, storedHistory := [] }

/-- An active workout with no exercises. -/
def emptyWorkout : Workout :=
  { id := "w0", name := "Empty", startTime := 0, endTime := none,
    exercises := [], notes := "" }

/-- Store state with the exercise-less workout active. -/
def emptyActiveState : StoreState :=
  { currentWorkout := some emptyWorkout, workoutHistory := [], isLoading := false,
    error := none, storedCurrent := some emptyWorkout, storedHistory := [] }

/-- Store state with no active workout. -/
def idleState : StoreState :=
  { currentWorkout := none, workoutHistory := [], isLoading := false,
    error := none, storedCurrent := none, storedHistory := [] }

/-- One-entry exercise catalog. -/
def benchCatalog : List Exercise :=
  [{ id := "bench", name := "Bench Press", muscleGroups := ["chest"],
     equipment := ["barbell"], category := "strength", instructions := "",
     imageUrl := "" }]

/-- A 40-rep set, in range for the validator (`reps <= 1000`) but beyond the
Brzycki formula's 36-rep domain. -/
def set40 : Set := { reps := 40, weight := 100, completed := true, restTime := 0 }

/-- Completed workout holding `set40` under the bench exercise. -/
def workout40 : Workout :=
  { id := "a", name := "A", startTime := 10, endTime := some 20,
    exercises := [{ exerciseId := "bench", sets := [set40], restTime := 120,
                    notes := "" }], notes := "" }

/-- Wide time range containing every fixture workout. -/
def wideRange : TimeRange := { startDate := 0, endDate := 100 }

/-- The set input `{reps: 0, weight: 80}`: `reps` is not a positive integer, so the
spec's range rules reject it. -/
def invalidSetInput : SetInput := { reps := 0, weight := 80, completed := none }

/-- An in-range set input `{reps: 10, weight: 80}`. -/
def validSetInput : SetInput := { reps := 10, weight := 80, completed := none }

/-- Per-dimension value of a record map at a key, `0` when the key is absent. -/
def recDim (g : PersonalRecord → ℚ) (m : RecordMap) (exerciseId : String) : ℚ :=
  ((mapGet? m exerciseId).map g).getD 0

/-- The value `getPersonalRecords` reports for an exercise in one dimension
(0 when the exercise has no record). -/
def recValue (g : PersonalRecord → ℚ) (catalog : List Exercise) (stored : List Workout)
    (exerciseId : String) : ℚ :=
  (((ProgressService.getPersonalRecords catalog stored).find?
      (fun r => r.exerciseId == exerciseId)).map g).getD 0

/-- Older completed workout: a 1-rep set at weight 100 on day-1 (start time 1). -/
def wOldPR : Workout :=
  { id := "b", name := "B", startTime := 1, endTime := some 2, exercises := [{ exerciseId := "bench", sets := [{ reps := 1, weight := 100, completed := true, restTime := 0 }], restTime := 120, notes := "" }], notes := "" }

/-- Newer completed workout: a 20-rep set at weight 50 on day-10 (start time 10). -/
def wNewPR : Workout :=
  { id := "a", name := "A", startTime := 10, endTime := some 20, exercises := [{ exerciseId := "bench", sets := [{ reps := 20, weight := 50, completed := true, restTime := 0 }], restTime := 120, notes := "" }], notes := "" }

/-- Completed workout whose single bench entry has TWO sets: 1×100 then 2×50.  Both
sets fire against the same stale (absent) entry-start record, so the second write
overwrites the first and the surviving bench record has `maxWeight = 50`, not 100. -/
def wStalePR : Workout :=
  { id := "c", name := "C", startTime := 3, endTime := some 4, exercises := [{ exerciseId := "bench", sets := [{ reps := 1, weight := 100, completed := true, restTime := 0 }, { reps := 2, weight := 50, completed := true, restTime := 0 }], restTime := 120, notes := "" }], notes := "" }


/-! Claim C1. -/

/-- Claim C1, counterexample: `addSetToExercise` does NOT reject the out-of-range
input `{reps: 0, weight: 80}` — although `SetValidator.validate` classifies it as
invalid, the store appends it to the bench entry's set list and reports no error,
so the claimed rejection-and-unchanged-list behaviour fails on this input. -/
theorem addSet_accepts_invalid_input :
    SetValidator.isValid
      { reps := some 0, weight := some 80, completed := none, restTime := some 0 } = false
    ∧ (addSetToExercise activeState "bench" invalidSetInput true).error = none
    ∧ (addSetToExercise activeState "bench" invalidSetInput true).currentWorkout =
        some { activeWorkout with exercises :=
          [{ benchEntry with sets :=
              [{ reps := 0, weight := 80, completed := true, restTime := 0 }] }] } := by
  refine ⟨by decide, by decide, by decide⟩

/-- Characterization of `SetValidator.validate` on a fully-present input: it
accepts exactly the inputs satisfying the range rules of the data model. -/
lemma isValid_iff (r wt rt : ℚ) (c : Option Bool) :
    SetValidator.isValid
      { reps := some r, weight := some wt, completed := c, restTime := some rt } = true ↔
    (0 < r ∧ r.isInt ∧ r ≤ 1000 ∧ 0 ≤ wt ∧ wt ≤ 10000 ∧ 0 ≤ rt ∧ rt ≤ 7200) := by
  simp only [SetValidator.isValid, SetValidator.validateErrors, jsTruthy, Option.getD_some,
    List.isEmpty_eq_true, List.append_eq_nil, ite_eq_right_iff, List.cons_ne_nil, imp_false,
    and_assoc]
  constructor
  · rintro ⟨h1, h2, h3, h4, h5, h6⟩
    push_neg at h1 h2 h3
    refine ⟨h1.1, h1.2, ?_, h2, ?_, h3, ?_⟩
    · by_contra hgt
      push_neg at hgt
      have h0 : (0 : ℚ) < r := by linarith
      exact h4 ⟨bne_iff_ne.mpr h0.ne', hgt⟩
    · by_contra hgt
      push_neg at hgt
      have h0 : (0 : ℚ) < wt := by linarith
      exact h5 ⟨bne_iff_ne.mpr h0.ne', hgt⟩
    · by_contra hgt
      push_neg at hgt
      have h0 : (0 : ℚ) < rt := by linarith
      exact h6 ⟨bne_iff_ne.mpr h0.ne', hgt⟩
  · rintro ⟨h1, h2, h3, h4, h5, h6, h7⟩
    refine ⟨not_or.mpr ⟨not_le.mpr h1, not_not.mpr h2⟩, not_lt.mpr h4, not_lt.mpr h6,
      ?_, ?_, ?_⟩
    · rintro ⟨-, hgt⟩
      linarith
    · rintro ⟨-, hgt⟩
      linarith
    · rintro ⟨-, hgt⟩
      linarith

/-- Claim C1 (amended): `SetValidator.validate` accepts exactly the inputs whose
`reps` is a positive integer at most 1000, whose `weight` is a non-negative number
at most 10000 and whose rest time is a non-negative number at most 7200; but the
add-set operation `addSetToExercise` never invokes it: for EVERY input — in range
or not — with an active session containing the exercise it appends a `Set` with
`completed` defaulting to `true`, reports no error, and never rejects with an
invalid-input error. -/
theorem addSet_appends_every_input_validator_unused
    (st : StoreState) (w : Workout) (i : ℕ) (ex : WorkoutExercise)
    (exerciseId : String) (input : SetInput)
    (hw : st.currentWorkout = some w)
    (hi : w.exercises.findIdx? (fun e => e.exerciseId == exerciseId) = some i)
    (hex : w.exercises[i]? = some ex) :
    (∀ r wt c rt, SetValidator.isValid
        { reps := some r, weight := some wt, completed := c, restTime := some rt } = true ↔
        (0 < r ∧ r.isInt ∧ r ≤ 1000 ∧ 0 ≤ wt ∧ wt ≤ 10000 ∧ 0 ≤ rt ∧ rt ≤ 7200))
    ∧ (addSetToExercise st exerciseId input true).error = st.error
    ∧ (addSetToExercise st exerciseId input true).currentWorkout =
        some { w with exercises := (w.exercises.set i { ex with sets := ex.sets ++ [{ reps := input.reps, weight := input.weight, completed := input.completed.getD true, restTime := 0 }] }) } := by
  refine ⟨fun r wt c rt => isValid_iff r wt rt c, ?_, ?_⟩
  · simp [addSetToExercise, hw, hi]
  · simp [addSetToExercise, hw, hi, List.getD_eq_getElem?_getD, hex]

/-- Claim C1, witness for `addSet_appends_every_input_validator_unused` at the
bench fixture with the invalid input `{reps: 0, weight: 80}`. -/
theorem addSet_appends_every_input_validator_unused_witness :
    (activeState.currentWorkout = some activeWorkout
      ∧ activeWorkout.exercises.findIdx? (fun e => e.exerciseId == "bench") = some 0
      ∧ activeWorkout.exercises[0]? = some benchEntry)
    ∧ ((∀ r wt c rt, SetValidator.isValid
          { reps := some r, weight := some wt, completed := c, restTime := some rt } = true ↔
          (0 < r ∧ r.isInt ∧ r ≤ 1000 ∧ 0 ≤ wt ∧ wt ≤ 10000 ∧ 0 ≤ rt ∧ rt ≤ 7200))
        ∧ (addSetToExercise activeState "bench" invalidSetInput true).error = activeState.error
        ∧ (addSetToExercise activeState "bench" invalidSetInput true).currentWorkout =
            some { activeWorkout with exercises := (activeWorkout.exercises.set 0 { benchEntry with sets := benchEntry.sets ++ [{ reps := invalidSetInput.reps, weight := invalidSetInput.weight, completed := invalidSetInput.completed.getD true, restTime := 0 }] }) }) :=
  ⟨⟨rfl, by decide, by decide⟩,
    addSet_appends_every_input_validator_unused activeState activeWorkout 0 benchEntry
      "bench" invalidSetInput rfl (by decide) (by decide)⟩

/-! Claim C3. -/

/-- Claim C3, counterexample: with `activeWorkout` active, `startWorkout` does NOT
fail with an already-active error — it reports no error and silently replaces the
active session with a fresh one, so the existing active session is not left
unchanged. -/
theorem startWorkout_replaces_active_session :
    (startWorkout activeState "w2" none "Workout D" 5 true).error = none
    ∧ (startWorkout activeState "w2" none "Workout D" 5 true).currentWorkout ≠
        some activeWorkout := by
  refine ⟨by decide, by decide⟩

/-- Claim C3 (amended): `startWorkout` never checks for an active session: whatever
session is active, it reports no error and overwrites the active slot with a fresh
empty workout (id, name default and start time from its environment), so an active
session whose id differs from the fresh id is silently discarded, never kept. -/
theorem startWorkout_never_fails_already_active
    (st : StoreState) (w : Workout) (newId : String) (name : Option String)
    (defaultName : String) (now : ℚ)
    (hw : st.currentWorkout = some w) (hid : w.id ≠ newId) :
    (startWorkout st newId name defaultName now true).error = none
    ∧ (∃ w', (startWorkout st newId name defaultName now true).currentWorkout = some w'
        ∧ w'.id = newId ∧ w'.startTime = now ∧ w'.endTime = none ∧ w'.exercises = [])
    ∧ (startWorkout st newId name defaultName now true).currentWorkout ≠
        st.currentWorkout := by
  refine ⟨rfl, ⟨_, rfl, rfl, rfl, rfl, rfl⟩, ?_⟩
  rw [hw]
  intro hcontra
  apply hid
  have h3 := congrArg (fun o => (Option.map Workout.id o).getD "") hcontra
  simp only [startWorkout, Option.map_some', Option.getD_some] at h3
  exact h3.symm

/-- Claim C3, witness for `startWorkout_never_fails_already_active` at the active
fixture state. -/
theorem startWorkout_never_fails_already_active_witness :
    (activeState.currentWorkout = some activeWorkout ∧ activeWorkout.id ≠ "w2")
    ∧ ((startWorkout activeState "w2" none "Workout D" 5 true).error = none
      ∧ (∃ w', (startWorkout activeState "w2" none "Workout D" 5 true).currentWorkout = some w'
          ∧ w'.id = "w2" ∧ w'.startTime = 5 ∧ w'.endTime = none ∧ w'.exercises = [])
      ∧ (startWorkout activeState "w2" none "Workout D" 5 true).currentWorkout ≠
          activeState.currentWorkout) :=
  ⟨⟨rfl, by decide⟩,
    startWorkout_never_fails_already_active activeState activeWorkout "w2" none
      "Workout D" 5 rfl (by decide)⟩

/-! Claim C4. -/

/-- Claim C4, counterexample: when the storage write fails during
`addSetToExercise` on the active fixture, the observable in-memory session state
does NOT equal the pre-command state — the mutation is retained (the set list of
the bench entry grows) even though the store never confirmed. -/
theorem storageFailure_leaves_mutated_state :
    (addSetToExercise activeState "bench" validSetInput false).error = some msgFailAddSet
    ∧ (addSetToExercise activeState "bench" validSetInput false).currentWorkout ≠
        activeState.currentWorkout := by
  refine ⟨by decide, by decide⟩

/-- Claim C4 (amended): each mutation updates the in-memory state BEFORE the store
write is awaited.  On success the updated session has been persisted when the
command returns (write-through holds); but when the store write fails, the
in-memory state keeps the mutation (only an error message is recorded) while the
persisted slots are unchanged — so on a storage failure the observable session
state equals the POST-mutation state, not the pre-command state. -/
theorem mutation_applied_before_store_confirm
    (st : StoreState) (w : Workout) (i : ℕ) (ex : WorkoutExercise)
    (exerciseId : String) (input : SetInput) (now : ℚ)
    (hw : st.currentWorkout = some w)
    (hi : w.exercises.findIdx? (fun e => e.exerciseId == exerciseId) = some i)
    (hex : w.exercises[i]? = some ex) (hne : w.exercises ≠ []) :
    ((addSetToExercise st exerciseId input true).storedCurrent =
        (addSetToExercise st exerciseId input true).currentWorkout
      ∧ (completeWorkout st now true).storedHistory =
          (completeWorkout st now true).workoutHistory)
    ∧ ((addSetToExercise st exerciseId input false).error = some msgFailAddSet
      ∧ (addSetToExercise st exerciseId input false).storedCurrent = st.storedCurrent
      ∧ (addSetToExercise st exerciseId input false).currentWorkout =
          some { w with exercises := (w.exercises.set i { ex with sets := ex.sets ++ [{ reps := input.reps, weight := input.weight, completed := input.completed.getD true, restTime := 0 }] }) })
    ∧ ((completeWorkout st now false).error = some msgFailComplete
      ∧ (completeWorkout st now false).storedHistory = st.storedHistory
      ∧ (completeWorkout st now false).storedCurrent = st.storedCurrent
      ∧ (completeWorkout st now false).currentWorkout = none
      ∧ (completeWorkout st now false).workoutHistory =
          { w with endTime := some now } :: st.workoutHistory) := by
  have hlen : w.exercises.length ≠ 0 := by
    intro h0
    exact hne (List.eq_nil_of_length_eq_zero h0)
  refine ⟨⟨?_, ?_⟩, ⟨?_, ?_, ?_⟩, ⟨?_, ?_, ?_, ?_, ?_⟩⟩
  · simp [addSetToExercise, hw, hi]
  · simp [completeWorkout, hw, hlen]
  · simp [addSetToExercise, hw, hi]
  · simp [addSetToExercise, hw, hi]
  · simp [addSetToExercise, hw, hi, List.getD_eq_getElem?_getD, hex]
  · simp [completeWorkout, hw, hlen]
  · simp [completeWorkout, hw, hlen]
  · simp [completeWorkout, hw, hlen]
  · simp [completeWorkout, hw, hlen]
  · simp [completeWorkout, hw, hlen]

/-- Claim C4, witness for `mutation_applied_before_store_confirm` at the active
fixture with the in-range input `{reps: 10, weight: 80}` and completion time 7. -/
theorem mutation_applied_before_store_confirm_witness :
    (activeState.currentWorkout = some activeWorkout
      ∧ activeWorkout.exercises.findIdx? (fun e => e.exerciseId == "bench") = some 0
      ∧ activeWorkout.exercises[0]? = some benchEntry
      ∧ activeWorkout.exercises ≠ [])
    ∧ (((addSetToExercise activeState "bench" validSetInput true).storedCurrent =
          (addSetToExercise activeState "bench" validSetInput true).currentWorkout
        ∧ (completeWorkout activeState 7 true).storedHistory =
            (completeWorkout activeState 7 true).workoutHistory)
      ∧ ((addSetToExercise activeState "bench" validSetInput false).error = some msgFailAddSet
        ∧ (addSetToExercise activeState "bench" validSetInput false).storedCurrent =
            activeState.storedCurrent
        ∧ (addSetToExercise activeState "bench" validSetInput false).currentWorkout =
            some { activeWorkout with exercises := (activeWorkout.exercises.set 0 { benchEntry with sets := benchEntry.sets ++ [{ reps := validSetInput.reps, weight := validSetInput.weight, completed := validSetInput.completed.getD true, restTime := 0 }] }) })
      ∧ ((completeWorkout activeState 7 false).error = some msgFailComplete
        ∧ (completeWorkout activeState 7 false).storedHistory = activeState.storedHistory
        ∧ (completeWorkout activeState 7 false).storedCurrent = activeState.storedCurrent
        ∧ (completeWorkout activeState 7 false).currentWorkout = none
        ∧ (completeWorkout activeState 7 false).workoutHistory =
            { activeWorkout with endTime := some 7 } :: activeState.workoutHistory)) :=
  ⟨⟨rfl, by decide, by decide, by decide⟩,
    mutation_applied_before_store_confirm activeState activeWorkout 0 benchEntry
      "bench" validSetInput 7 rfl (by decide) (by decide) (by decide)⟩

/-! Claim C2. -/

/-- Claim C2: `SetModel.getEstimatedOneRepMax` does degrade to `weight` for
`reps > 36` (first conjunct, at reps = 40), and on `1 < reps <= 36` uses
`weight * 36 / (37 - reps)` (second conjunct, the spec example reps = 10,
weight = 80); but the progress computation does NOT take the maximum of this
value: its inline formula extrapolates past 36 reps (third conjunct: value
`-1200`, not `100`), so for a history whose only bench set is 40 reps at
weight 100 the reported `oneRepMax` is `0` (the running maximum never leaves
its initial `0`) instead of the `100` the claim requires. -/
theorem progress_oneRepMax_ignores_brzycki_guard :
    SetModel.getEstimatedOneRepMax set40 = 100
    ∧ SetModel.getEstimatedOneRepMax { reps := 10, weight := 80, completed := true, restTime := 0 } = 80 * (36 / 27)
    ∧ ProgressService.inlineOneRepMax 40 100 = -1200
    ∧ (ProgressService.getExerciseProgress benchCatalog [workout40] "bench" wideRange).toOption.map
        (fun m => m.oneRepMax) = some 0 := by
  refine ⟨by decide, by norm_num [SetModel.getEstimatedOneRepMax],
    by norm_num [ProgressService.inlineOneRepMax], ?_⟩
  norm_num [ProgressService.getExerciseProgress, ProgressService.getWorkoutsInTimeRange,
    WorkoutService.getWorkoutHistory, getExerciseById, benchCatalog, workout40, set40,
    wideRange, ProgressService.inlineOneRepMax, ProgressService.calculateProgressPercentage,
    startTimeDesc, Except.toOption]

/-! Claim C9. -/

/-- Claim C9, counterexample: the streak computation is not a function of the
history alone — with the same singleton date list, two different ambient clock
readings (`now = 0` and `now = 8` days later) give different results, because
`calculateStreaks` reads `new Date()` itself instead of receiving "now" as an
injected parameter. -/
theorem calculateStreaks_differs_across_clock_readings :
    ProgressService.calculateStreaks [0] 0 ≠
    ProgressService.calculateStreaks [0] (8 * 86400000) := by
  intro h
  have h2 := congrArg Prod.snd h
  norm_num [ProgressService.calculateStreaks, ProgressService.streakLoop] at h2

/-- The running `tempStreak` of the streak loop stays at least 1. -/
lemma streakLoop_temp_pos (ds : List ℚ) :
    ∀ (prev : ℚ) (longest temp : ℕ), 1 ≤ temp →
      1 ≤ (ProgressService.streakLoop prev longest temp ds).2 := by
  induction ds with
  | nil => intro prev longest temp h; exact h
  | cons d ds ih =>
    intro prev longest temp h
    unfold ProgressService.streakLoop
    by_cases hc : |d - prev| / 86400000 ≤ 7
    · rw [if_pos hc]
      exact ih d longest (temp + 1) (by omega)
    · rw [if_neg hc]
      exact ih d (max longest temp) 1 le_rfl

/-- Claim C9 (amended): the engine is deterministic only given the history, the
time range AND the ambient clock reading: `calculateStreaks` reads `new Date()`
itself (ProgressService.ts line 345), it is not injected, and its `currentStreak`
output genuinely depends on that reading — for every nonempty date list, a
reading within 7 days of the last workout yields a positive current streak while
a reading more than 7 days later yields 0, so two runs of `getWorkoutFrequency`
over identical history and range can disagree. -/
theorem engine_determinism_needs_clock_input
    (d : ℚ) (ds : List ℚ) (now1 now2 : ℚ)
    (h1 : (now1 - (d :: ds).getLast (List.cons_ne_nil d ds)) / 86400000 ≤ 7)
    (h2 : ¬ (now2 - (d :: ds).getLast (List.cons_ne_nil d ds)) / 86400000 ≤ 7) :
    1 ≤ (ProgressService.calculateStreaks (d :: ds) now1).2
    ∧ (ProgressService.calculateStreaks (d :: ds) now2).2 = 0
    ∧ ProgressService.calculateStreaks (d :: ds) now1 ≠
        ProgressService.calculateStreaks (d :: ds) now2 := by
  have hpos := streakLoop_temp_pos ds d 1 1 le_rfl
  refine ⟨?_, ?_, ?_⟩
  · simp only [ProgressService.calculateStreaks, if_pos h1]
    exact hpos
  · simp only [ProgressService.calculateStreaks, if_neg h2]
  · intro hcontra
    have := congrArg Prod.snd hcontra
    simp only [ProgressService.calculateStreaks, if_pos h1, if_neg h2] at this
    omega

/-- Claim C9, witness for `engine_determinism_needs_clock_input` with the single
date 0, a reading the same day and a reading 8 days later. -/
theorem engine_determinism_needs_clock_input_witness :
    ((((0 : ℚ) - ([(0 : ℚ)].getLast (List.cons_ne_nil 0 [])) ) / 86400000 ≤ 7)
      ∧ ¬ ((8 * 86400000 - ([(0 : ℚ)].getLast (List.cons_ne_nil 0 []))) / 86400000 ≤ 7))
    ∧ (1 ≤ (ProgressService.calculateStreaks [0] 0).2
      ∧ (ProgressService.calculateStreaks [0] (8 * 86400000)).2 = 0
      ∧ ProgressService.calculateStreaks [0] 0 ≠
          ProgressService.calculateStreaks [0] (8 * 86400000)) :=
  ⟨⟨by norm_num, by norm_num⟩,
    engine_determinism_needs_clock_input 0 [] 0 (8 * 86400000) (by norm_num)
      (by norm_num)⟩

/-! Claim C6. -/

/-- Claim C6, counterexample: completing a session at a clock reading equal to its
start time — the code sets `endTime` to the ambient `new Date()` reading with no
guard — records the session with `endedAt = startedAt`, so `complete()` does NOT
set `endedAt` strictly greater than `startedAt` on every successful completion. -/
theorem completeWorkout_same_instant_not_strict :
    (completeWorkout activeState 0 true).workoutHistory =
      [{ activeWorkout with endTime := some 0 }]
    ∧ activeWorkout.startTime = 0
    ∧ ¬ (∃ t, ({ activeWorkout with endTime := some 0 } : Workout).endTime = some t
          ∧ activeWorkout.startTime < t) := by
  refine ⟨by decide, by decide, ?_⟩
  rintro ⟨t, ht, hlt⟩
  have h0 : (0 : ℚ) = t := Option.some.inj ht
  rw [← h0] at hlt
  norm_num [activeWorkout] at hlt

/-- Claim C6 (amended): `completeWorkout` fails on the no-active-session path when
no session is active (leaving history and the empty slot unchanged); fails on the
empty-workout path when the active session has no exercises (leaving the session
active and unchanged); and otherwise stamps `endedAt` with the ambient completion
clock reading `now` — with no guard, so `endedAt > startedAt` holds exactly when
the reading exceeds the start time (a same-instant completion gives
`endedAt = startedAt`, see the counterexample) — prepends the session to history
exactly once, clears the active slot, and makes a second call fail on the
no-active-session path. -/
theorem completeWorkout_lifecycle
    (stN stE st : StoreState) (wE w : Workout) (now now2 : ℚ)
    (hN : stN.currentWorkout = none)
    (hE : stE.currentWorkout = some wE) (hEmpty : wE.exercises = [])
    (hw : st.currentWorkout = some w) (hne : w.exercises ≠ []) :
    ((completeWorkout stN now true).error = some msgFailComplete
      ∧ (completeWorkout stN now true).currentWorkout = none
      ∧ (completeWorkout stN now true).workoutHistory = stN.workoutHistory)
    ∧ ((completeWorkout stE now true).error = some msgEmptyWorkout
      ∧ (completeWorkout stE now true).currentWorkout = some wE
      ∧ (completeWorkout stE now true).workoutHistory = stE.workoutHistory)
    ∧ ((completeWorkout st now true).currentWorkout = none
      ∧ (completeWorkout st now true).workoutHistory =
          { w with endTime := some now } :: st.workoutHistory
      ∧ (completeWorkout st now true).workoutHistory.count { w with endTime := some now } =
          st.workoutHistory.count { w with endTime := some now } + 1
      ∧ ({ w with endTime := some now } : Workout).endTime = some now
      ∧ (w.startTime < now →
          ∃ t, ({ w with endTime := some now } : Workout).endTime = some t
            ∧ w.startTime < t)
      ∧ (completeWorkout (completeWorkout st now true) now2 true).error =
          some msgFailComplete
      ∧ (completeWorkout (completeWorkout st now true) now2 true).workoutHistory =
          (completeWorkout st now true).workoutHistory) := by
  have hlen : ¬ w.exercises.length = 0 := by
    intro h0
    exact hne (List.eq_nil_of_length_eq_zero h0)
  have hEl : wE.exercises.length = 0 := by
    rw [hEmpty]
    rfl
  have hstep : (completeWorkout st now true).currentWorkout = none := by
    simp [completeWorkout, hw, hlen]
  refine ⟨⟨?_, ?_, ?_⟩, ⟨?_, ?_, ?_⟩, ?_, ?_, ?_, rfl, fun hlt => ⟨now, rfl, hlt⟩, ?_, ?_⟩
  · simp [completeWorkout, hN]
  · simp [completeWorkout, hN]
  · simp [completeWorkout, hN]
  · simp [completeWorkout, hE, hEl]
  · simp [completeWorkout, hE, hEl]
  · simp [completeWorkout, hE, hEl]
  · exact hstep
  · simp [completeWorkout, hw, hlen]
  · simp [completeWorkout, hw, hlen, List.count_cons]
  · generalize hG : completeWorkout st now true = stX at hstep ⊢
    simp [completeWorkout, hstep]
  · generalize hG : completeWorkout st now true = stX at hstep ⊢
    simp [completeWorkout, hstep]

/-- Claim C6, witness for `completeWorkout_lifecycle` at the idle, empty-active and
active fixture states with completion time 7 and second-call time 9. -/
theorem completeWorkout_lifecycle_witness :
    (idleState.currentWorkout = none
      ∧ emptyActiveState.currentWorkout = some emptyWorkout
      ∧ emptyWorkout.exercises = []
      ∧ activeState.currentWorkout = some activeWorkout
      ∧ activeWorkout.exercises ≠ [])
    ∧ (((completeWorkout idleState 7 true).error = some msgFailComplete
      ∧ (completeWorkout idleState 7 true).currentWorkout = none
      ∧ (completeWorkout idleState 7 true).workoutHistory = idleState.workoutHistory)
    ∧ ((completeWorkout emptyActiveState 7 true).error = some msgEmptyWorkout
      ∧ (completeWorkout emptyActiveState 7 true).currentWorkout = some emptyWorkout
      ∧ (completeWorkout emptyActiveState 7 true).workoutHistory =
          emptyActiveState.workoutHistory)
    ∧ ((completeWorkout activeState 7 true).currentWorkout = none
      ∧ (completeWorkout activeState 7 true).workoutHistory =
          { activeWorkout with endTime := some 7 } :: activeState.workoutHistory
      ∧ (completeWorkout activeState 7 true).workoutHistory.count
            { activeWorkout with endTime := some 7 } =
          activeState.workoutHistory.count { activeWorkout with endTime := some 7 } + 1
      ∧ ({ activeWorkout with endTime := some 7 } : Workout).endTime = some 7
      ∧ (activeWorkout.startTime < 7 →
          ∃ t, ({ activeWorkout with endTime := some 7 } : Workout).endTime = some t
            ∧ activeWorkout.startTime < t)
      ∧ (completeWorkout (completeWorkout activeState 7 true) 9 true).error =
          some msgFailComplete
      ∧ (completeWorkout (completeWorkout activeState 7 true) 9 true).workoutHistory =
          (completeWorkout activeState 7 true).workoutHistory)) :=
  ⟨⟨rfl, rfl, rfl, rfl, by decide⟩,
    completeWorkout_lifecycle idleState emptyActiveState activeState emptyWorkout
      activeWorkout 7 9 rfl rfl rfl rfl (by decide)⟩

/-! Claim C10. -/

/-- Claim C10: `completeWorkout` prepends the newly completed session to the
stored history list (newest first), and `getWorkoutHistory` returns the stored
sessions sorted by start time descending (most recent first) for every stored
history and every pagination choice. -/
theorem completed_history_newest_first
    (st : StoreState) (w : Workout) (now : ℚ)
    (hw : st.currentWorkout = some w) (hne : w.exercises ≠ []) :
    (completeWorkout st now true).storedHistory =
        { w with endTime := some now } :: st.workoutHistory
    ∧ (completeWorkout st now true).workoutHistory =
        { w with endTime := some now } :: st.workoutHistory
    ∧ ∀ (stored : List Workout) (limit offset : Option ℕ),
        (WorkoutService.getWorkoutHistory stored limit offset).Sorted startTimeDesc := by
  have hlen : ¬ w.exercises.length = 0 := by
    intro h0
    exact hne (List.eq_nil_of_length_eq_zero h0)
  refine ⟨?_, ?_, ?_⟩
  · simp [completeWorkout, hw, hlen]
  · simp [completeWorkout, hw, hlen]
  · intro stored limit offset
    have hs : (List.insertionSort startTimeDesc stored).Sorted startTimeDesc :=
      List.sorted_insertionSort startTimeDesc stored
    unfold WorkoutService.getWorkoutHistory
    cases limit with
    | none =>
      exact hs.sublist (List.drop_sublist _ _)
    | some l =>
      by_cases h0 : l = 0
      · simp only [if_pos h0]
        exact hs.sublist (List.drop_sublist _ _)
      · simp only [if_neg h0]
        exact hs.sublist ((List.take_sublist _ _).trans (List.drop_sublist _ _))

/-- Claim C10, witness for `completed_history_newest_first` at the active fixture. -/
theorem completed_history_newest_first_witness :
    (activeState.currentWorkout = some activeWorkout ∧ activeWorkout.exercises ≠ [])
    ∧ ((completeWorkout activeState 7 true).storedHistory =
          { activeWorkout with endTime := some 7 } :: activeState.workoutHistory
      ∧ (completeWorkout activeState 7 true).workoutHistory =
          { activeWorkout with endTime := some 7 } :: activeState.workoutHistory
      ∧ ∀ (stored : List Workout) (limit offset : Option ℕ),
          (WorkoutService.getWorkoutHistory stored limit offset).Sorted startTimeDesc) :=
  ⟨⟨rfl, by decide⟩,
    completed_history_newest_first activeState activeWorkout 7 rfl (by decide)⟩

/-! Claim C7. -/

/-- A nonempty date list splits into at least one run. -/
lemma splitRuns_ne_nil : ∀ {l : List ℚ}, l ≠ [] → splitRuns l ≠ [] := by
  intro l h
  match l with
  | [d] => simp [splitRuns]
  | d :: e :: ds =>
    unfold splitRuns
    cases splitRuns (e :: ds) with
    | nil => simp
    | cons r rs =>
      by_cases hc : e - d ≤ 7 * 86400000
      · simp [hc]
      · simp [hc]

/-- Every run produced by `splitRuns` is nonempty. -/
lemma splitRuns_runs_ne_nil : ∀ (l : List ℚ) (r : List ℚ), r ∈ splitRuns l → r ≠ []
  | [], r, hr => by simp [splitRuns] at hr
  | [d], r, hr => by
    simp [splitRuns] at hr
    simp [hr]
  | d :: e :: ds, r, hr => by
    have ih := splitRuns_runs_ne_nil (e :: ds)
    unfold splitRuns at hr
    cases hsp : splitRuns (e :: ds) with
    | nil => exact absurd hsp (splitRuns_ne_nil (by simp))
    | cons r0 rs0 =>
      simp only [hsp] at hr
      by_cases hc : e - d ≤ 7 * 86400000
      · rw [if_pos hc] at hr
        rcases List.mem_cons.mp hr with h1 | h2
        · rw [h1]
          simp
        · exact ih r (hsp ▸ List.mem_cons_of_mem r0 h2)
      · rw [if_neg hc] at hr
        rcases List.mem_cons.mp hr with h1 | h2
        · rw [h1]
          simp
        · exact ih r (hsp ▸ h2)

/-- Folding `max` from the left is the initial value joined with the fold from zero. -/
lemma foldl_max_eq (a : ℕ) (l : List ℕ) : l.foldl max a = max a (l.foldr max 0) := by
  induction l generalizing a with
  | nil => simp
  | cons x l ih =>
    simp only [List.foldl_cons, List.foldr_cons, ih (max a x)]
    omega

/-- Folding `max` from the right is the initial value joined with the fold from zero. -/
lemma foldr_max_eq (a : ℕ) (l : List ℕ) : l.foldr max a = max a (l.foldr max 0) := by
  induction l with
  | nil => simp
  | cons x l ih =>
    simp only [List.foldr_cons, ih]
    omega

/-- The imperative streak loop, started on the tail of an ascending date list with
current run length `temp` and closed-run maximum `longest`, computes exactly the
run-length decomposition of `splitRuns`: the first run extends the entering `temp`,
the middle runs fold into the maximum, and the final run length is returned as the
final `tempStreak`. -/
lemma streakLoop_eq :
    ∀ (ds : List ℚ) (prev : ℚ) (longest temp : ℕ) (L0 : ℕ) (Ls : List ℕ),
      List.Chain' (· ≤ ·) (prev :: ds) →
      (splitRuns (prev :: ds)).map List.length = L0 :: Ls →
      ProgressService.streakLoop prev longest temp ds =
        (((temp + L0 - 1) :: Ls).dropLast.foldl max longest,
         ((temp + L0 - 1) :: Ls).getLastD 0)
  | [], prev, longest, temp, L0, Ls, hch, hL => by
    simp only [splitRuns, List.map_cons, List.map_nil, List.length_cons, List.length_nil,
      List.cons.injEq] at hL
    obtain ⟨h1, h2⟩ := hL
    subst h1
    subst h2
    simp [ProgressService.streakLoop]
  | d :: ds', prev, longest, temp, L0, Ls, hch, hL => by
    have hle : prev ≤ d := (List.chain'_cons.mp hch).1
    have hch' : List.Chain' (· ≤ ·) (d :: ds') := (List.chain'_cons.mp hch).2
    have hgap : (|d - prev| / 86400000 ≤ 7) ↔ (d - prev ≤ 7 * 86400000) := by
      rw [abs_of_nonneg (by linarith), div_le_iff₀ (by norm_num)]
    obtain ⟨r0, rs0, hsp⟩ : ∃ r0 rs0, splitRuns (d :: ds') = r0 :: rs0 := by
      cases h : splitRuns (d :: ds') with
      | nil => exact absurd h (splitRuns_ne_nil (by simp))
      | cons a b => exact ⟨a, b, rfl⟩
    unfold splitRuns at hL
    simp only [hsp] at hL
    unfold ProgressService.streakLoop
    have hLrec : (splitRuns (d :: ds')).map List.length =
        r0.length :: rs0.map List.length := by
      rw [hsp]
      simp
    by_cases hc : d - prev ≤ 7 * 86400000
    · rw [if_pos (hgap.mpr hc)]
      rw [if_pos hc] at hL
      simp only [List.map_cons, List.length_cons, List.cons.injEq] at hL
      obtain ⟨h1, h2⟩ := hL
      have ih := streakLoop_eq ds' d longest (temp + 1) r0.length
        (rs0.map List.length) hch' hLrec
      rw [ih]
      have hlist : ((temp + 1 + r0.length - 1) :: rs0.map List.length) =
          ((temp + L0 - 1) :: Ls) := by
        rw [← h1, h2]
        congr 1
        omega
      rw [hlist]
    · rw [if_neg (fun hx => hc (hgap.mp hx))]
      rw [if_neg hc] at hL
      simp only [List.map_cons, List.length_cons, List.length_nil, List.cons.injEq] at hL
      obtain ⟨h1, h2⟩ := hL
      have ih := streakLoop_eq ds' d (max longest temp) 1 r0.length
        (rs0.map List.length) hch' hLrec
      rw [ih]
      rw [← h1, ← h2]
      have hA : 1 + r0.length - 1 = r0.length := by omega
      have hB : temp + 1 - 1 = temp := by omega
      rw [hA, hB]
      cases rs0 with
      | nil =>
        simp [List.getLastD_cons]
      | cons q qs =>
        simp only [List.map_cons, List.dropLast_cons₂, List.foldl_cons,
          List.getLastD_cons]

/-- The last entry of the mapped length list is the length of the last run. -/
lemma getLastD_map_length (r0 : List ℚ) (rs0 : List (List ℚ)) :
    (r0.length :: rs0.map List.length).getLastD 0 =
      ((r0 :: rs0).getLast (List.cons_ne_nil _ _)).length := by
  have h1 : (r0.length :: rs0.map List.length) = (r0 :: rs0).map List.length := by
    simp
  rw [h1, List.getLastD_eq_getLast?, List.getLast?_map,
    List.getLast?_eq_getLast _ (List.cons_ne_nil _ _)]
  simp

/-- Joining the fold over the initial runs with the final run length gives the
maximum over all run lengths, for lists of positive naturals. -/
lemma max_fold_split (L : List ℕ) (hne : L ≠ []) (hpos : ∀ x ∈ L, 1 ≤ x) :
    max (L.dropLast.foldl max 1) (L.getLastD 0) = L.foldr max 0 := by
  have hg : L.getLastD 0 = L.getLast hne := by
    rw [List.getLastD_eq_getLast?, List.getLast?_eq_getLast _ hne]
    rfl
  have hsplit := List.dropLast_concat_getLast hne
  have hfr : L.foldr max 0 = max (L.getLast hne) (L.dropLast.foldr max 0) := by
    conv_lhs => rw [← hsplit]
    rw [List.foldr_append]
    simp only [List.foldr_cons, List.foldr_nil]
    rw [foldr_max_eq]
    omega
  have hpos1 : 1 ≤ L.getLast hne := hpos _ (List.getLast_mem hne)
  rw [hg, hfr, foldl_max_eq]
  omega

/-- Refinement: on every ascending date list the source streak computation agrees
with the spec-modelled run decomposition. -/
lemma calculateStreaks_eq_streaksSpec (dates : List ℚ) (now : ℚ)
    (hs : dates.Sorted (· ≤ ·)) :
    ProgressService.calculateStreaks dates now = streaksSpec dates now := by
  match dates with
  | [] => rfl
  | d :: ds =>
    have hch : List.Chain' (· ≤ ·) (d :: ds) := List.Pairwise.chain' hs
    obtain ⟨r0, rs0, hsp⟩ : ∃ r0 rs0, splitRuns (d :: ds) = r0 :: rs0 := by
      cases h : splitRuns (d :: ds) with
      | nil => exact absurd h (splitRuns_ne_nil (by simp))
      | cons a b => exact ⟨a, b, rfl⟩
    have hL : (splitRuns (d :: ds)).map List.length =
        r0.length :: rs0.map List.length := by
      rw [hsp]
      simp
    have hloop := streakLoop_eq ds d 1 1 r0.length (rs0.map List.length) hch hL
    have hA : 1 + r0.length - 1 = r0.length := by omega
    rw [hA] at hloop
    have hpos : ∀ x ∈ (r0.length :: rs0.map List.length), 1 ≤ x := by
      intro x hx
      rw [show (r0.length :: rs0.map List.length) = (r0 :: rs0).map List.length from
        by simp] at hx
      obtain ⟨rr, hrr, hlen⟩ := List.mem_map.mp hx
      have hnn : rr ≠ [] := splitRuns_runs_ne_nil (d :: ds) rr (hsp ▸ hrr)
      rw [← hlen]
      exact List.length_pos.mpr hnn
    have hlastD : (d :: ds).getLastD 0 = (d :: ds).getLast (List.cons_ne_nil d ds) := by
      rw [List.getLastD_eq_getLast?, List.getLast?_eq_getLast _ (List.cons_ne_nil d ds)]
      rfl
    simp only [ProgressService.calculateStreaks, hloop, streaksSpec, hsp]
    refine Prod.ext ?_ ?_
    · simp only [List.map_cons]
      exact max_fold_split _ (by simp) hpos
    · simp only [List.map_cons]
      by_cases hcnd : (now - (d :: ds).getLast (List.cons_ne_nil d ds)) / 86400000 ≤ 7
      · rw [if_pos hcnd,
          if_pos (by rw [hlastD, ← div_le_iff₀ (by norm_num : (0:ℚ) < 86400000)]; exact hcnd)]
        exact getLastD_map_length r0 rs0
      · rw [if_neg hcnd,
          if_neg (by rw [hlastD, ← div_le_iff₀ (by norm_num : (0:ℚ) < 86400000)]; exact hcnd)]

/-- Claim C7: for every ascending-sorted list of session start dates, the streak
computation equals the spec's run decomposition — runs extend while consecutive
gaps are at most 7 days and close otherwise, `longestStreak` is the maximum run
length, and `currentStreak` is the final run length exactly when the most recent
session is within 7 days of `now`, else 0; moreover the spec's example dates
2025-01-01, 2025-01-05, 2025-01-20 (epoch ms, gaps of 4 and 15 days) give
`longestStreak = 2` and `currentStreak = 0` for every `now` more than 7 days past
2025-01-20. -/
theorem streaks_seven_day_runs (dates : List ℚ) (now : ℚ)
    (hs : dates.Sorted (· ≤ ·)) :
    ProgressService.calculateStreaks dates now = streaksSpec dates now
    ∧ (∀ now2 : ℚ, 1737331200000 + 7 * 86400000 < now2 →
        ProgressService.calculateStreaks
          [1735689600000, 1736035200000, 1737331200000] now2 = (2, 0)) := by
  refine ⟨calculateStreaks_eq_streaksSpec dates now hs, ?_⟩
  intro now2 h
  have hd1 : |(1736035200000 : ℚ) - 1735689600000| = 345600000 := by
    rw [abs_of_nonneg (by norm_num)]
    norm_num
  have hd2 : |(1737331200000 : ℚ) - 1736035200000| = 1296000000 := by
    rw [abs_of_nonneg (by norm_num)]
    norm_num
  have hloop : ProgressService.streakLoop 1735689600000 1 1
      [1736035200000, 1737331200000] = (2, 1) := by
    unfold ProgressService.streakLoop
    rw [hd1, if_pos (by norm_num)]
    unfold ProgressService.streakLoop
    rw [hd2, if_neg (by norm_num)]
    rfl
  have hcond : ¬ ((now2 - 1737331200000) / 86400000 ≤ 7) := by
    intro hcc
    rw [div_le_iff₀ (by norm_num)] at hcc
    linarith
  simp only [ProgressService.calculateStreaks, hloop, List.getLast, if_neg hcond]
  norm_num

/-- Claim C7, witness for `streaks_seven_day_runs` on the sorted singleton date
list `[0]` with clock reading 0. -/
theorem streaks_seven_day_runs_witness :
    ([(0 : ℚ)].Sorted (· ≤ ·))
    ∧ (ProgressService.calculateStreaks [0] 0 = streaksSpec [0] 0
      ∧ (∀ now2 : ℚ, 1737331200000 + 7 * 86400000 < now2 →
          ProgressService.calculateStreaks
            [1735689600000, 1736035200000, 1737331200000] now2 = (2, 0))) :=
  ⟨by simp, streaks_seven_day_runs [0] 0 (by simp)⟩


/-! Claims C5 and C8: personal-records machinery. -/

/-- Overwriting an existing key makes `find?` on that key return the new pair. -/
lemma find?_overwrite_self (k : String) (v : PersonalRecord) :
    ∀ (t : RecordMap), t.any (fun q => q.1 == k) →
      (t.map (fun q => if q.1 == k then (k, v) else q)).find? (fun q => q.1 == k) =
        some (k, v)
  | [], h => by simp at h
  | p :: t, h => by
    rw [List.map_cons]
    by_cases hp : (p.1 == k) = true
    · rw [if_pos hp]
      simp [List.find?_cons]
    · have hp' : (p.1 == k) = false := by simpa using hp
      rw [if_neg (by simp [hp'])]
      simp only [List.find?_cons, hp']
      refine find?_overwrite_self k v t ?_
      simp only [List.any_cons, hp', Bool.false_or] at h
      exact h

/-- Appending a fresh pair makes `find?` on its key return it, when the key was absent. -/
lemma find?_append_self (k : String) (v : PersonalRecord) :
    ∀ (t : RecordMap), t.any (fun q => q.1 == k) = false →
      (t ++ [(k, v)]).find? (fun q => q.1 == k) = some (k, v)
  | [], _ => by simp [List.find?_cons]
  | p :: t, h => by
    simp only [List.any_cons, Bool.or_eq_false_iff] at h
    rw [List.cons_append]
    simp only [List.find?_cons, h.1]
    exact find?_append_self k v t h.2

/-- Overwriting key `k` does not affect `find?` on a different key. -/
lemma find?_overwrite_ne (k k2 : String) (v : PersonalRecord) (h : k ≠ k2) :
    ∀ (t : RecordMap),
      (t.map (fun q => if q.1 == k then (k, v) else q)).find? (fun q => q.1 == k2) =
        t.find? (fun q => q.1 == k2)
  | [] => rfl
  | p :: t => by
    rw [List.map_cons]
    by_cases hp : (p.1 == k) = true
    · have hpk : p.1 = k := by simpa [beq_iff_eq] using hp
      have hp2 : (p.1 == k2) = false := by
        simp [beq_iff_eq, hpk, h]
      have hk2 : ((k : String) == k2) = false := by simp [h]
      rw [if_pos hp]
      simp only [List.find?_cons, hp2, hk2]
      exact find?_overwrite_ne k k2 v h t
    · have hp' : (p.1 == k) = false := by simpa using hp
      rw [if_neg (by simp [hp'])]
      by_cases hp2 : (p.1 == k2) = true
      · simp only [List.find?_cons, hp2]
      · have hp2' : (p.1 == k2) = false := by simpa using hp2
        simp only [List.find?_cons, hp2']
        exact find?_overwrite_ne k k2 v h t

/-- Appending a pair with key `k` does not affect `find?` on a different key. -/
lemma find?_append_ne (k k2 : String) (v : PersonalRecord) (h : k ≠ k2) :
    ∀ (t : RecordMap),
      (t ++ [(k, v)]).find? (fun q => q.1 == k2) = t.find? (fun q => q.1 == k2)
  | [] => by
    have hk2 : ((k : String) == k2) = false := by simp [h]
    simp [List.find?_cons, hk2]
  | p :: t => by
    rw [List.cons_append]
    by_cases hp2 : (p.1 == k2) = true
    · simp only [List.find?_cons, hp2]
    · have hp2' : (p.1 == k2) = false := by simpa using hp2
      simp only [List.find?_cons, hp2']
      exact find?_append_ne k k2 v h t

/-- Reading back the key just written returns the written record. -/
lemma mapGet?_mapSet_self (m : RecordMap) (k : String) (v : PersonalRecord) :
    mapGet? (mapSet m k v) k = some v := by
  unfold mapSet mapGet?
  by_cases hany : List.any m (fun q => q.1 == k)
  · rw [if_pos hany, find?_overwrite_self k v m hany]
    rfl
  · rw [if_neg hany, find?_append_self k v m (Bool.eq_false_iff.mpr hany)]
    rfl

/-- Writing one key leaves reads of any other key unchanged. -/
lemma mapGet?_mapSet_ne (m : RecordMap) (k k2 : String) (v : PersonalRecord)
    (h : k ≠ k2) : mapGet? (mapSet m k v) k2 = mapGet? m k2 := by
  unfold mapSet mapGet?
  by_cases hany : List.any m (fun q => q.1 == k)
  · rw [if_pos hany, find?_overwrite_ne k k2 v h m]
  · rw [if_neg hany, find?_append_ne k k2 v h m]

/-- Every pair of the written map is the written pair or one of the original pairs. -/
lemma mem_mapSet {m : RecordMap} {k : String} {v : PersonalRecord}
    {p : String × PersonalRecord} (hp : p ∈ mapSet m k v) : p = (k, v) ∨ p ∈ m := by
  unfold mapSet at hp
  by_cases hany : List.any m (fun q => q.1 == k)
  · rw [if_pos hany] at hp
    obtain ⟨q, hq, hfq⟩ := List.mem_map.mp hp
    by_cases hqk : (q.1 == k) = true
    · rw [if_pos hqk] at hfq
      exact Or.inl hfq.symm
    · rw [if_neg hqk] at hfq
      exact Or.inr (hfq ▸ hq)
  · rw [if_neg hany] at hp
    rcases List.mem_append.mp hp with h1 | h2
    · exact Or.inr h1
    · exact Or.inl (by simpa using h2)

/-- Generic preservation of a predicate along a left fold. -/
lemma foldl_preserve {α β : Type} (P : β → Prop) (step : β → α → β)
    (hstep : ∀ b a, P b → P (step b a)) :
    ∀ (l : List α) (b : β), P b → P (l.foldl step b)
  | [], _, hb => hb
  | a :: l, b, hb => foldl_preserve P step hstep l (step b a) (hstep b a hb)

/-- One `processSet` step preserves the key-and-name invariant of the record map,
whatever stale record it was given: every write computes the name identically. -/
lemma processSet_preserves_key_name (catalog : List Exercise) (date : ℚ) (k : String)
    (cr? : Option PersonalRecord) (m : RecordMap) (s : Set)
    (hm : ∀ p ∈ m, p.2.exerciseName = recordName catalog p.1 ∧ p.2.exerciseId = p.1) :
    ∀ p ∈ processSet catalog date k cr? m s,
      p.2.exerciseName = recordName catalog p.1 ∧ p.2.exerciseId = p.1 := by
  intro p hp
  cases cr? with
  | none =>
    simp only [processSet] at hp
    rcases mem_mapSet hp with h1 | h2
    · rw [h1]
      exact ⟨rfl, rfl⟩
    · exact hm p h2
  | some cr =>
    simp only [processSet] at hp
    by_cases htr : recordTrigger cr s
    · rw [if_pos htr] at hp
      rcases mem_mapSet hp with h1 | h2
      · rw [h1]
        exact ⟨rfl, rfl⟩
      · exact hm p h2
    · rw [if_neg htr] at hp
      exact hm p hp

/-- Every record produced by the full scan carries its own key as `exerciseId` and
the catalog-decorated (or fallback) name. -/
lemma recordsFold_key_name (catalog : List Exercise) (ws : List Workout)
    (m : RecordMap)
    (hm : ∀ p ∈ m, p.2.exerciseName = recordName catalog p.1 ∧ p.2.exerciseId = p.1) :
    ∀ p ∈ recordsFold catalog ws m,
      p.2.exerciseName = recordName catalog p.1 ∧ p.2.exerciseId = p.1 := by
  refine foldl_preserve
    (fun mm => ∀ p ∈ mm,
      p.2.exerciseName = recordName catalog p.1 ∧ p.2.exerciseId = p.1)
    _ (fun b w hb => ?_) ws m hm
  refine foldl_preserve
    (fun mm => ∀ p ∈ mm,
      p.2.exerciseName = recordName catalog p.1 ∧ p.2.exerciseId = p.1)
    _ (fun b2 e hb2 => ?_) w.exercises b hb
  refine foldl_preserve
    (fun mm => ∀ p ∈ mm,
      p.2.exerciseName = recordName catalog p.1 ∧ p.2.exerciseId = p.1)
    _ (fun b3 st hb3 => ?_) e.sets b2 hb2
  exact processSet_preserves_key_name catalog w.startTime e.exerciseId
    (mapGet? b2 e.exerciseId) b3 st hb3

/-- `find?` on the values list agrees with `mapGet?` when every record carries its
key as `exerciseId`. -/
lemma find?_map_snd : ∀ (m : RecordMap) (exerciseId : String),
    (∀ p ∈ m, p.2.exerciseId = p.1) →
    (m.map (fun p => p.2)).find? (fun r => r.exerciseId == exerciseId) =
      (m.find? (fun p => p.1 == exerciseId)).map (fun p => p.2)
  | [], _, _ => rfl
  | p :: t, exerciseId, h => by
    have hkey : p.2.exerciseId = p.1 := (h p (by simp)).symm ▸ (h p (by simp))
    rw [List.map_cons]
    simp only [List.find?_cons, hkey]
    cases hc : (p.1 == exerciseId) with
    | true => rfl
    | false => exact find?_map_snd t exerciseId (fun q hq => h q (by simp [hq]))

/-- The reported per-dimension value is the map's per-dimension value. -/
lemma recValue_eq_recDim (g : PersonalRecord → ℚ) (catalog : List Exercise)
    (stored : List Workout) (exerciseId : String) :
    recValue g catalog stored exerciseId =
      recDim g (recordsFold catalog
        (WorkoutService.getWorkoutHistory stored none none) []) exerciseId := by
  unfold recValue ProgressService.getPersonalRecords recDim mapGet?
  rw [find?_map_snd _ _ (fun p hp =>
    (recordsFold_key_name catalog _ [] (fun q hq => by simp at hq) p hp).2)]

/-- `find?` is the head of `filter`. -/
lemma find?_eq_head?_filter {α : Type} (p : α → Bool) :
    ∀ (l : List α), l.find? p = (l.filter p).head?
  | [] => rfl
  | x :: l => by
    cases hx : p x with
    | true => simp [List.find?_cons, hx, List.filter_cons]
    | false =>
      rw [List.find?_cons_of_neg _ (by simp [hx]), List.filter_cons, if_neg (by simp [hx])]
      exact find?_eq_head?_filter p l

/-- `recLE` is reflexive. -/
lemma recLE_refl (r : PersonalRecord) : recLE r r :=
  ⟨le_rfl, le_rfl, le_rfl, le_rfl⟩

/-- `recLE` is transitive. -/
lemma recLE_trans {r1 r2 r3 : PersonalRecord} (h1 : recLE r1 r2) (h2 : recLE r2 r3) :
    recLE r1 r3 :=
  ⟨h1.1.trans h2.1, h1.2.1.trans h2.2.1, h1.2.2.1.trans h2.2.2.1, h1.2.2.2.trans h2.2.2.2⟩

/-- Failing the update guard bounds every dimension of the set by the record. -/
lemma not_trigger_bounds {cr : PersonalRecord} {s : Set} (h : ¬ recordTrigger cr s) :
    s.weight ≤ cr.maxWeight ∧ s.reps ≤ cr.maxReps ∧
      s.reps * s.weight ≤ cr.maxVolume ∧
      ProgressService.inlineOneRepMax s.reps s.weight ≤ cr.oneRepMax := by
  unfold recordTrigger at h
  push_neg at h
  exact h

/-- The update guard is anti-monotone in the record: a set firing against a larger
record also fires against a smaller one. -/
lemma recordTrigger_anti {r1 r2 : PersonalRecord} (h : recLE r1 r2) {s : Set}
    (htr : recordTrigger r2 s) : recordTrigger r1 s := by
  rcases htr with h1 | h2 | h3 | h4
  · exact Or.inl (lt_of_le_of_lt h.1 h1)
  · exact Or.inr (Or.inl (lt_of_le_of_lt h.2.1 h2))
  · exact Or.inr (Or.inr (Or.inl (lt_of_le_of_lt h.2.2.1 h3)))
  · exact Or.inr (Or.inr (Or.inr (lt_of_le_of_lt h.2.2.2 h4)))

/-- A fresh record is dimension-wise non-negative. -/
lemma recNonneg_fresh (catalog : List Exercise) (date : ℚ) (k : String) (s : Set) :
    recNonneg (freshRecord catalog date k s) :=
  ⟨le_max_left 0 _, le_max_left 0 _, le_max_left 0 _, le_max_left 0 _⟩

/-- A bump of a non-negative record is non-negative. -/
lemma recNonneg_bump (catalog : List Exercise) (date : ℚ) (k : String)
    {cr : PersonalRecord} (h : recNonneg cr) (s : Set) :
    recNonneg (bumpRecord catalog date k cr s) :=
  ⟨le_max_of_le_left h.1, le_max_of_le_left h.2.1, le_max_of_le_left h.2.2.1,
    le_max_of_le_left h.2.2.2⟩

/-- A record is below its own bump. -/
lemma recLE_bump_self (catalog : List Exercise) (date : ℚ) (k : String)
    (cr : PersonalRecord) (s : Set) : recLE cr (bumpRecord catalog date k cr s) :=
  ⟨le_max_left _ _, le_max_left _ _, le_max_left _ _, le_max_left _ _⟩

/-- Bumps with the same set preserve the record order. -/
lemma recLE_bump_bump (catalog : List Exercise) (date : ℚ) (k : String)
    {r1 r2 : PersonalRecord} (h : recLE r1 r2) (s : Set) :
    recLE (bumpRecord catalog date k r1 s) (bumpRecord catalog date k r2 s) :=
  ⟨max_le_max h.1 le_rfl, max_le_max h.2.1 le_rfl, max_le_max h.2.2.1 le_rfl,
    max_le_max h.2.2.2 le_rfl⟩

/-- A fresh record is below any bump of a non-negative record with the same set. -/
lemma recLE_fresh_bump (catalog : List Exercise) (date : ℚ) (k : String)
    {r2 : PersonalRecord} (h : recNonneg r2) (s : Set) :
    recLE (freshRecord catalog date k s) (bumpRecord catalog date k r2 s) :=
  ⟨max_le_max h.1 le_rfl, max_le_max h.2.1 le_rfl, max_le_max h.2.2.1 le_rfl,
    max_le_max h.2.2.2 le_rfl⟩

/-- A fresh record of a set that does not fire against a non-negative record is
below that record. -/
lemma recLE_fresh_of_not_trigger (catalog : List Exercise) (date : ℚ) (k : String)
    {r2 : PersonalRecord} (hn : recNonneg r2) {s : Set} (h : ¬ recordTrigger r2 s) :
    recLE (freshRecord catalog date k s) r2 := by
  obtain ⟨b1, b2, b3, b4⟩ := not_trigger_bounds h
  exact ⟨max_le hn.1 b1, max_le hn.2.1 b2, max_le hn.2.2.1 b3, max_le hn.2.2.2 b4⟩

/-- A bump of a smaller record with a set that does not fire against the larger
record stays below the larger record. -/
lemma recLE_bump_of_not_trigger (catalog : List Exercise) (date : ℚ) (k : String)
    {r1 r2 : PersonalRecord} (h12 : recLE r1 r2) {s : Set}
    (h : ¬ recordTrigger r2 s) : recLE (bumpRecord catalog date k r1 s) r2 := by
  obtain ⟨b1, b2, b3, b4⟩ := not_trigger_bounds h
  exact ⟨max_le h12.1 b1, max_le h12.2.1 b2, max_le h12.2.2.1 b3, max_le h12.2.2.2 b4⟩

/-- `optRecLE` is reflexive. -/
lemma optRecLE_refl : ∀ (o : Option PersonalRecord), optRecLE o o
  | none => trivial
  | some r => recLE_refl r

/-- `optRecLE` is transitive. -/
lemma optRecLE_trans : ∀ {o1 o2 o3 : Option PersonalRecord},
    optRecLE o1 o2 → optRecLE o2 o3 → optRecLE o1 o3
  | none, _, _, _, _ => trivial
  | some _, none, _, h1, _ => False.elim h1
  | some _, some _, none, _, h2 => False.elim h2
  | some _, some _, some _, h1, h2 => recLE_trans h1 h2

/-- Any key other than the watched one passes unchanged through one entry's set
loop. -/
lemma entrySets_get_ne (catalog : List Exercise) (date : ℚ) (k : String)
    (cr? : Option PersonalRecord) (k2 : String) (hk : k ≠ k2) :
    ∀ (sets : List Set) (m : RecordMap),
      mapGet? (sets.foldl (processSet catalog date k cr?) m) k2 = mapGet? m k2
  | [], _ => rfl
  | s :: rest, m => by
    rw [List.foldl_cons, entrySets_get_ne catalog date k cr? k2 hk rest]
    cases cr? with
    | none =>
      simp only [processSet]
      exact mapGet?_mapSet_ne m k k2 _ hk
    | some cr =>
      by_cases htr : recordTrigger cr s
      · simp only [processSet, if_pos htr]
        exact mapGet?_mapSet_ne m k k2 _ hk
      · simp only [processSet, if_neg htr]

/-- The watched key after one entry's set loop holds the surviving write of
`resRec` when there is one, else whatever the map held before the entry. -/
lemma entrySets_get (catalog : List Exercise) (date : ℚ) (k : String)
    (cr? : Option PersonalRecord) :
    ∀ (sets : List Set) (m : RecordMap),
      mapGet? (sets.foldl (processSet catalog date k cr?) m) k =
        (resRec catalog date k cr? sets).or (mapGet? m k)
  | [], m => by cases cr? <;> simp [resRec]
  | s :: rest, m => by
    rw [List.foldl_cons, entrySets_get catalog date k cr? rest]
    cases cr? with
    | none =>
      have hm : mapGet? (processSet catalog date k none m s) k =
          some (freshRecord catalog date k s) := by
        simp only [processSet]
        exact mapGet?_mapSet_self m k _
      rw [hm]
      cases rest with
      | nil => simp [resRec]
      | cons r rs =>
        obtain ⟨t, ht⟩ : ∃ t, (r :: rs).getLast? = some t := by
          cases h : (r :: rs).getLast? with
          | none => exact absurd (List.getLast?_eq_none_iff.mp h) (List.cons_ne_nil r rs)
          | some t => exact ⟨t, rfl⟩
        simp [resRec, List.getLast?_cons_cons, ht]
    | some cr =>
      by_cases htr : recordTrigger cr s
      · have hm : mapGet? (processSet catalog date k (some cr) m s) k =
            some (bumpRecord catalog date k cr s) := by
          simp only [processSet, if_pos htr]
          exact mapGet?_mapSet_self m k _
        rw [hm]
        have hfc : (s :: rest).filter (fun s2 => decide (recordTrigger cr s2)) =
            s :: rest.filter (fun s2 => decide (recordTrigger cr s2)) := by
          rw [List.filter_cons, if_pos (decide_eq_true htr)]
        cases hfl : rest.filter (fun s2 => decide (recordTrigger cr s2)) with
        | nil => simp [resRec, hfc, hfl]
        | cons q qs =>
          obtain ⟨t, ht⟩ : ∃ t, (q :: qs).getLast? = some t := by
            cases h : (q :: qs).getLast? with
            | none => exact absurd (List.getLast?_eq_none_iff.mp h) (List.cons_ne_nil q qs)
            | some t => exact ⟨t, rfl⟩
          simp [resRec, hfc, hfl, List.getLast?_cons_cons, ht]
      · have hm : processSet catalog date k (some cr) m s = m := by
          simp only [processSet, if_neg htr]
        rw [hm]
        have hfc : (s :: rest).filter (fun s2 => decide (recordTrigger cr s2)) =
            rest.filter (fun s2 => decide (recordTrigger cr s2)) := by
          rw [List.filter_cons, if_neg (by simp [htr])]
        simp [resRec, hfc]

/-- `entryFold` at the entry's own key computes `entryRec` of the stale read. -/
lemma entryFold_get_self (catalog : List Exercise) (date : ℚ) (m : RecordMap)
    (e : WorkoutExercise) :
    mapGet? (entryFold catalog date m e) e.exerciseId =
      entryRec catalog date e.exerciseId (mapGet? m e.exerciseId) e.sets := by
  rw [entryFold, entrySets_get catalog date e.exerciseId (mapGet? m e.exerciseId) e.sets m]
  rfl

/-- `entryFold` leaves every other key unchanged. -/
lemma entryFold_get_ne (catalog : List Exercise) (date : ℚ) (m : RecordMap)
    (e : WorkoutExercise) (k2 : String) (hk : e.exerciseId ≠ k2) :
    mapGet? (entryFold catalog date m e) k2 = mapGet? m k2 :=
  entrySets_get_ne catalog date e.exerciseId _ k2 hk e.sets m

/-- `entryRec` agrees with its reversed-list reformulation. -/
lemma entryRec_eq_entryRecR (catalog : List Exercise) (date : ℚ) (k : String)
    (cr? : Option PersonalRecord) (sets : List Set) :
    entryRec catalog date k cr? sets = entryRecR catalog date k cr? sets.reverse := by
  cases cr? with
  | none => simp [entryRec, resRec, entryRecR, Option.or_none]
  | some cr =>
    have hf : sets.reverse.find? (fun s => decide (recordTrigger cr s)) =
        (sets.filter (fun s => decide (recordTrigger cr s))).getLast? := by
      rw [find?_eq_head?_filter, List.filter_reverse, List.head?_reverse]
    simp only [entryRec, resRec, entryRecR, hf]
    cases (sets.filter (fun s => decide (recordTrigger cr s))).getLast? with
    | none => rfl
    | some t => rfl

/-- With a stale record present the entry always leaves some record, at least the
stale one. -/
lemma entryRecR_some (catalog : List Exercise) (date : ℚ) (k : String)
    (cr : PersonalRecord) (lr : List Set) :
    ∃ r, entryRecR catalog date k (some cr) lr = some r ∧ recLE cr r := by
  simp only [entryRecR]
  cases hf : lr.find? (fun s => decide (recordTrigger cr s)) with
  | none => exact ⟨cr, rfl, recLE_refl cr⟩
  | some t => exact ⟨_, rfl, recLE_bump_self catalog date k cr t⟩

/-- Unfolding of `entryRecR` on a nonempty reversed list with a stale record. -/
lemma entryRecR_cons_some (catalog : List Exercise) (date : ℚ) (k : String)
    (cr : PersonalRecord) (t : Set) (rtl : List Set) :
    entryRecR catalog date k (some cr) (t :: rtl) =
      if recordTrigger cr t then some (bumpRecord catalog date k cr t)
      else entryRecR catalog date k (some cr) rtl := by
  by_cases htr : recordTrigger cr t
  · rw [if_pos htr]
    simp only [entryRecR]
    rw [List.find?_cons_of_pos _ (by simpa using htr)]
  · rw [if_neg htr]
    simp only [entryRecR]
    rw [List.find?_cons_of_neg _ (by simpa using htr)]

/-- Entry-step monotonicity: stale records in `optRecLE` order (the larger one
dimension-wise non-negative) yield entry results in `optRecLE` order.  The two key
facts: a set firing against the larger record also fires against the smaller one;
and a set NOT firing against the larger record is dimension-wise below it, so the
write it causes against the smaller record cannot escape the larger side's result. -/
lemma entryRecR_mono (catalog : List Exercise) (date : ℚ) (k : String) :
    ∀ (lr : List Set) (cr1? cr2? : Option PersonalRecord),
      optRecLE cr1? cr2? → (∀ r, cr2? = some r → recNonneg r) →
      optRecLE (entryRecR catalog date k cr1? lr) (entryRecR catalog date k cr2? lr) := by
  intro lr
  induction lr with
  | nil =>
    intro cr1? cr2? h12 h2n
    cases cr1? with
    | none =>
      cases cr2? with
      | none => exact trivial
      | some r2 => exact trivial
    | some r1 =>
      cases cr2? with
      | none => exact False.elim h12
      | some r2 => exact h12
  | cons t rtl ih =>
    intro cr1? cr2? h12 h2n
    cases cr1? with
    | none =>
      have h1 : entryRecR catalog date k none (t :: rtl) =
          some (freshRecord catalog date k t) := by
        simp [entryRecR]
      cases cr2? with
      | none =>
        rw [h1]
        exact recLE_refl _
      | some r2 =>
        have hr2 : recNonneg r2 := h2n r2 rfl
        rw [h1, entryRecR_cons_some]
        by_cases htr : recordTrigger r2 t
        · rw [if_pos htr]
          exact recLE_fresh_bump catalog date k hr2 t
        · rw [if_neg htr]
          obtain ⟨r', hr', hler'⟩ := entryRecR_some catalog date k r2 rtl
          rw [hr']
          exact recLE_trans (recLE_fresh_of_not_trigger catalog date k hr2 htr) hler'
    | some r1 =>
      cases cr2? with
      | none => exact False.elim h12
      | some r2 =>
        have h12' : recLE r1 r2 := h12
        have hr2 : recNonneg r2 := h2n r2 rfl
        rw [entryRecR_cons_some, entryRecR_cons_some]
        by_cases htr2 : recordTrigger r2 t
        · rw [if_pos htr2, if_pos (recordTrigger_anti h12' htr2)]
          exact recLE_bump_bump catalog date k h12' t
        · rw [if_neg htr2]
          by_cases htr1 : recordTrigger r1 t
          · rw [if_pos htr1]
            obtain ⟨r', hr', hler'⟩ := entryRecR_some catalog date k r2 rtl
            rw [hr']
            exact recLE_trans (recLE_bump_of_not_trigger catalog date k h12' htr2) hler'
          · rw [if_neg htr1]
            exact ih (some r1) (some r2) h12 h2n

/-- Monotonicity of the entry result in the stale record. -/
lemma entryRec_mono (catalog : List Exercise) (date : ℚ) (k : String) (sets : List Set)
    {cr1? cr2? : Option PersonalRecord} (h12 : optRecLE cr1? cr2?)
    (h2n : ∀ r, cr2? = some r → recNonneg r) :
    optRecLE (entryRec catalog date k cr1? sets) (entryRec catalog date k cr2? sets) := by
  rw [entryRec_eq_entryRecR, entryRec_eq_entryRecR]
  exact entryRecR_mono catalog date k sets.reverse cr1? cr2? h12 h2n

/-- The entry result is above the entering record. -/
lemma entryRec_ge (catalog : List Exercise) (date : ℚ) (k : String)
    (cr? : Option PersonalRecord) (sets : List Set) :
    optRecLE cr? (entryRec catalog date k cr? sets) := by
  rw [entryRec_eq_entryRecR]
  cases cr? with
  | none => exact trivial
  | some cr =>
    obtain ⟨r', hr', hler'⟩ := entryRecR_some catalog date k cr sets.reverse
    rw [hr']
    exact hler'

/-- A successful `mapGet?` read from a non-negative map is non-negative. -/
lemma mapGet?_nonneg {m : RecordMap} (hn : mapNonneg m) {k : String}
    {r : PersonalRecord} (h : mapGet? m k = some r) : recNonneg r := by
  unfold mapGet? at h
  obtain ⟨p, hp, hpr⟩ := Option.map_eq_some'.mp h
  exact hpr ▸ hn p (List.mem_of_find?_eq_some hp)

/-- `processSet` preserves map non-negativity when the stale record is
non-negative. -/
lemma processSet_nonneg (catalog : List Exercise) (date : ℚ) (k : String)
    (cr? : Option PersonalRecord) (m : RecordMap) (s : Set)
    (hn : mapNonneg m) (hcr : ∀ r, cr? = some r → recNonneg r) :
    mapNonneg (processSet catalog date k cr? m s) := by
  intro p hp
  cases cr? with
  | none =>
    simp only [processSet] at hp
    rcases mem_mapSet hp with h1 | h2
    · rw [h1]
      exact recNonneg_fresh catalog date k s
    · exact hn p h2
  | some cr =>
    simp only [processSet] at hp
    by_cases htr : recordTrigger cr s
    · rw [if_pos htr] at hp
      rcases mem_mapSet hp with h1 | h2
      · rw [h1]
        exact recNonneg_bump catalog date k (hcr cr rfl) s
      · exact hn p h2
    · rw [if_neg htr] at hp
      exact hn p hp

/-- `entryFold` preserves map non-negativity. -/
lemma entryFold_nonneg (catalog : List Exercise) (date : ℚ) (m : RecordMap)
    (e : WorkoutExercise) (hn : mapNonneg m) : mapNonneg (entryFold catalog date m e) := by
  unfold entryFold
  refine foldl_preserve mapNonneg _ (fun b s hb => ?_) e.sets m hn
  exact processSet_nonneg catalog date e.exerciseId (mapGet? m e.exerciseId) b s hb
    (fun r hr => mapGet?_nonneg hn hr)

/-- `workoutFold` preserves map non-negativity. -/
lemma workoutFold_nonneg (catalog : List Exercise) (m : RecordMap) (w : Workout)
    (hn : mapNonneg m) : mapNonneg (workoutFold catalog m w) := by
  unfold workoutFold
  exact foldl_preserve mapNonneg _
    (fun b e hb => entryFold_nonneg catalog w.startTime b e hb) w.exercises m hn

/-- `recordsFold` preserves map non-negativity. -/
lemma recordsFold_nonneg (catalog : List Exercise) (ws : List Workout) (m : RecordMap)
    (hn : mapNonneg m) : mapNonneg (recordsFold catalog ws m) := by
  unfold recordsFold
  exact foldl_preserve mapNonneg _
    (fun b w hb => workoutFold_nonneg catalog b w hb) ws m hn

/-- `mapLE` is reflexive. -/
lemma mapLE_refl (m : RecordMap) : mapLE m m :=
  fun k => optRecLE_refl (mapGet? m k)

/-- `mapLE` is transitive. -/
lemma mapLE_trans {m1 m2 m3 : RecordMap} (h1 : mapLE m1 m2) (h2 : mapLE m2 m3) :
    mapLE m1 m3 :=
  fun k => optRecLE_trans (h1 k) (h2 k)

/-- One entry can only move the map up: each write joins with the entry-start
record, so the value at the key never drops below its entry-start value. -/
lemma entryFold_grow (catalog : List Exercise) (date : ℚ) (m : RecordMap)
    (e : WorkoutExercise) : mapLE m (entryFold catalog date m e) := by
  intro k2
  by_cases hk : e.exerciseId = k2
  · subst hk
    rw [entryFold_get_self]
    exact entryRec_ge catalog date e.exerciseId (mapGet? m e.exerciseId) e.sets
  · rw [entryFold_get_ne catalog date m e k2 hk]
    exact optRecLE_refl _

/-- An exercise-entry list fold can only move the map up. -/
lemma exsFold_grow (catalog : List Exercise) (date : ℚ) :
    ∀ (exs : List WorkoutExercise) (m : RecordMap),
      mapLE m (exs.foldl (entryFold catalog date) m)
  | [], m => mapLE_refl m
  | e :: exs, m =>
    mapLE_trans (entryFold_grow catalog date m e)
      (exsFold_grow catalog date exs (entryFold catalog date m e))

/-- One workout can only move the map up. -/
lemma workoutFold_grow (catalog : List Exercise) (m : RecordMap) (w : Workout) :
    mapLE m (workoutFold catalog m w) :=
  exsFold_grow catalog w.startTime w.exercises m

/-- A whole scan can only move the map up. -/
lemma recordsFold_grow (catalog : List Exercise) :
    ∀ (ws : List Workout) (m : RecordMap), mapLE m (recordsFold catalog ws m)
  | [], m => mapLE_refl m
  | w :: ws, m =>
    mapLE_trans (workoutFold_grow catalog m w)
      (recordsFold_grow catalog ws (workoutFold catalog m w))

/-- Entry-level map monotonicity. -/
lemma entryFold_mapLE (catalog : List Exercise) (date : ℚ) {m1 m2 : RecordMap}
    (e : WorkoutExercise) (h : mapLE m1 m2) (hn2 : mapNonneg m2) :
    mapLE (entryFold catalog date m1 e) (entryFold catalog date m2 e) := by
  intro k2
  by_cases hk : e.exerciseId = k2
  · subst hk
    rw [entryFold_get_self, entryFold_get_self]
    exact entryRec_mono catalog date e.exerciseId e.sets (h e.exerciseId)
      (fun r hr => mapGet?_nonneg hn2 hr)
  · rw [entryFold_get_ne catalog date m1 e k2 hk, entryFold_get_ne catalog date m2 e k2 hk]
    exact h k2

/-- Exercise-entry-list-level map monotonicity. -/
lemma exsFold_mapLE (catalog : List Exercise) (date : ℚ) :
    ∀ (exs : List WorkoutExercise) (m1 m2 : RecordMap),
      mapLE m1 m2 → mapNonneg m2 →
      mapLE (exs.foldl (entryFold catalog date) m1) (exs.foldl (entryFold catalog date) m2)
  | [], _, _, h, _ => h
  | e :: exs, m1, m2, h, hn =>
    exsFold_mapLE catalog date exs (entryFold catalog date m1 e)
      (entryFold catalog date m2 e)
      (entryFold_mapLE catalog date e h hn) (entryFold_nonneg catalog date m2 e hn)

/-- Workout-level map monotonicity. -/
lemma workoutFold_mapLE (catalog : List Exercise) (w : Workout) {m1 m2 : RecordMap}
    (h : mapLE m1 m2) (hn2 : mapNonneg m2) :
    mapLE (workoutFold catalog m1 w) (workoutFold catalog m2 w) :=
  exsFold_mapLE catalog w.startTime w.exercises m1 m2 h hn2

/-- Scan-level map monotonicity: scanning the same workouts from a keywise-larger
(non-negative) map yields a keywise-larger result. -/
lemma recordsFold_mapLE (catalog : List Exercise) :
    ∀ (ws : List Workout) (m1 m2 : RecordMap), mapLE m1 m2 → mapNonneg m2 →
      mapLE (recordsFold catalog ws m1) (recordsFold catalog ws m2)
  | [], _, _, h, _ => h
  | w :: ws, m1, m2, h, hn =>
    recordsFold_mapLE catalog ws (workoutFold catalog m1 w) (workoutFold catalog m2 w)
      (workoutFold_mapLE catalog w h hn) (workoutFold_nonneg catalog m2 w hn)

/-- Reported per-dimension values respect the keywise map order, for monotone
dimension projections that are non-negative on non-negative records. -/
lemma recDim_le_of_mapLE (g : PersonalRecord → ℚ)
    (gmono : ∀ r1 r2, recLE r1 r2 → g r1 ≤ g r2)
    (gpos : ∀ r, recNonneg r → 0 ≤ g r)
    {m1 m2 : RecordMap} (h : mapLE m1 m2) (hn2 : mapNonneg m2) (k : String) :
    recDim g m1 k ≤ recDim g m2 k := by
  have hk := h k
  unfold recDim
  cases h1 : mapGet? m1 k with
  | none =>
    simp only [Option.map_none', Option.getD_none]
    cases h2 : mapGet? m2 k with
    | none => simp
    | some r2 =>
      simp only [Option.map_some', Option.getD_some]
      exact gpos r2 (mapGet?_nonneg hn2 h2)
  | some r1 =>
    cases h2 : mapGet? m2 k with
    | none =>
      rw [h1, h2] at hk
      exact False.elim hk
    | some r2 =>
      rw [h1, h2] at hk
      simp only [Option.map_some', Option.getD_some]
      exact gmono r1 r2 hk

/-- `recordsFold` over an appended workout list is sequential composition. -/
lemma recordsFold_append (catalog : List Exercise) (l1 l2 : List Workout)
    (m : RecordMap) :
    recordsFold catalog (l1 ++ l2) m = recordsFold catalog l2 (recordsFold catalog l1 m) := by
  unfold recordsFold
  rw [List.foldl_append]

/-- Prepending a workout to the stored history can only raise each reported
dimension value: the sorted extended history is the sorted old history with the new
workout inserted at its sort position, so the tail of the scan runs the same
workouts from a keywise-larger map. -/
lemma recValue_le_cons (g : PersonalRecord → ℚ)
    (gmono : ∀ r1 r2, recLE r1 r2 → g r1 ≤ g r2)
    (gpos : ∀ r, recNonneg r → 0 ≤ g r)
    (catalog : List Exercise) (stored : List Workout) (w : Workout)
    (exerciseId : String) :
    recValue g catalog stored exerciseId ≤ recValue g catalog (w :: stored) exerciseId := by
  rw [recValue_eq_recDim, recValue_eq_recDim]
  have hh : ∀ l : List Workout,
      WorkoutService.getWorkoutHistory l none none = List.insertionSort startTimeDesc l := by
    intro l
    simp [WorkoutService.getWorkoutHistory]
  rw [hh, hh]
  set L := List.insertionSort startTimeDesc stored with hLdef
  have hsplit : List.insertionSort startTimeDesc (w :: stored) =
      (L.takeWhile fun b => ¬ startTimeDesc w b) ++
        w :: (L.dropWhile fun b => ¬ startTimeDesc w b) :=
    List.insertionSort_cons_eq_take_drop startTimeDesc w stored
  have hcat : L = (L.takeWhile fun b => ¬ startTimeDesc w b) ++
      (L.dropWhile fun b => ¬ startTimeDesc w b) :=
    (List.takeWhile_append_dropWhile _ L).symm
  rw [hsplit]
  conv_lhs => rw [hcat]
  rw [recordsFold_append, recordsFold_append]
  have hm1 : mapNonneg (recordsFold catalog
      (L.takeWhile fun b => ¬ startTimeDesc w b) []) :=
    recordsFold_nonneg catalog _ [] (fun p hp => absurd hp (List.not_mem_nil p))
  have hw : mapNonneg (workoutFold catalog
      (recordsFold catalog (L.takeWhile fun b => ¬ startTimeDesc w b) []) w) :=
    workoutFold_nonneg catalog _ w hm1
  exact recDim_le_of_mapLE g gmono gpos
    (recordsFold_mapLE catalog (L.dropWhile fun b => ¬ startTimeDesc w b) _ _
      (workoutFold_grow catalog _ w) hw)
    (recordsFold_nonneg catalog _ _ hw) exerciseId

/-- Claim C5, counterexample: the bench record over this two-workout history has
`maxReps = 20` but `achievedDate = 1` — the reps maximum was achieved only in the
workout with start time 10 (the older workout has no 20-rep set), so the reps
dimension's record is NOT tagged with the date of the session that achieved it:
all four dimensions share one `achievedDate`, here the date of the last workout in
scan order (newest-first) whose set fired an update. -/
theorem personal_record_date_not_per_dimension :
    (ProgressService.getPersonalRecords [] [wOldPR, wNewPR]).map
        (fun r => (r.exerciseId, r.maxWeight, r.maxReps, r.achievedDate)) =
      [("bench", 100, 20, 1)]
    ∧ wNewPR.startTime = 10
    ∧ (wOldPR.exercises.flatMap (fun e => e.sets)).all (fun s => s.reps != 20) = true := by
  refine ⟨?_, rfl, by decide⟩
  norm_num [ProgressService.getPersonalRecords, WorkoutService.getWorkoutHistory,
    recordsFold, workoutFold, entryFold, processSet, mapGet?, mapSet, freshRecord,
    bumpRecord, recordTrigger, recordName, getExerciseById,
    ProgressService.inlineOneRepMax, wOldPR, wNewPR, startTimeDesc, max_def]

/-- Claim C5 (amended): `getPersonalRecords` scans every set across all stored
history per exercise (no time window), but it is NOT a per-dimension running
maximum: within one exercise entry the current record is read once, BEFORE the set
loop (`const currentRecord`, ProgressService.ts line 129), and every update joins
the set's values with that stale read, so a later set of the same entry overwrites
an earlier set's larger value — concretely, a history whose one entry has the sets
1×100 then 2×50 reports `maxWeight = 50` although a weight-100 set was scanned
(first conjunct) — and all four dimensions share one `achievedDate` (see the
counterexample).  What survives: extending the stored history with a new workout
never lowers any reported dimension value — weight, reps, volume and one-rep-max
are each monotonically non-decreasing under history extension (second conjunct). -/
theorem personal_records_stale_entry_monotone (catalog : List Exercise)
    (stored : List Workout) (w : Workout) (exerciseId : String) :
    ((ProgressService.getPersonalRecords [] [wStalePR]).map
        (fun r => (r.maxWeight, r.maxReps)) = [(50, 2)]
      ∧ (wStalePR.exercises.flatMap (fun e => e.sets)).any
          (fun s => decide (s.weight = 100)) = true)
    ∧ (recValue (fun r => r.maxWeight) catalog stored exerciseId ≤
        recValue (fun r => r.maxWeight) catalog (w :: stored) exerciseId
      ∧ recValue (fun r => r.maxReps) catalog stored exerciseId ≤
        recValue (fun r => r.maxReps) catalog (w :: stored) exerciseId
      ∧ recValue (fun r => r.maxVolume) catalog stored exerciseId ≤
        recValue (fun r => r.maxVolume) catalog (w :: stored) exerciseId
      ∧ recValue (fun r => r.oneRepMax) catalog stored exerciseId ≤
        recValue (fun r => r.oneRepMax) catalog (w :: stored) exerciseId) := by
  refine ⟨⟨?_, by decide⟩, ?_, ?_, ?_, ?_⟩
  · norm_num [ProgressService.getPersonalRecords, WorkoutService.getWorkoutHistory,
      recordsFold, workoutFold, entryFold, processSet, mapGet?, mapSet, freshRecord,
      bumpRecord, recordTrigger, recordName, getExerciseById,
      ProgressService.inlineOneRepMax, wStalePR, startTimeDesc, max_def]
  · exact recValue_le_cons _ (fun r1 r2 h => h.1) (fun r h => h.1)
      catalog stored w exerciseId
  · exact recValue_le_cons _ (fun r1 r2 h => h.2.1) (fun r h => h.2.1)
      catalog stored w exerciseId
  · exact recValue_le_cons _ (fun r1 r2 h => h.2.2.1) (fun r h => h.2.2.1)
      catalog stored w exerciseId
  · exact recValue_le_cons _ (fun r1 r2 h => h.2.2.2) (fun r h => h.2.2.2)
      catalog stored w exerciseId

/-- Claim C8, counterexample: when the Exercise Catalog has no match for the id,
`getExerciseProgress` and `getStrengthProgression` do raise (return an error)
instead of degrading gracefully or falling back to the raw id. -/
theorem analytics_raise_on_unknown_exercise :
    (∃ msg, ProgressService.getExerciseProgress [] [] "deadlift" wideRange =
      .error msg)
    ∧ (∃ msg, ProgressService.getStrengthProgression [] [] "deadlift" wideRange =
      .error msg) :=
  ⟨⟨_, rfl⟩, ⟨_, rfl⟩⟩

/-- Claim C8 (amended): with a catalog match, `getExerciseProgress` degrades to the
all-zero metrics object when no workout in range contains the exercise; but when
the catalog has NO match, `getExerciseProgress` and `getStrengthProgression` throw
an error rather than falling back to the raw id — only `getPersonalRecords`
decorates with the `exercise?.name || exerciseId` fallback, so every record's name
is the catalog name when one exists and the raw id otherwise. -/
theorem analytics_degrade_needs_catalog_match
    (catalog : List Exercise) (stored : List Workout) (exerciseId : String)
    (timeRange : TimeRange) (ex : Exercise)
    (hfound : getExerciseById catalog exerciseId = some ex)
    (hnodata : (ProgressService.getWorkoutsInTimeRange stored timeRange).filter
        (fun w => w.exercises.any (fun e => e.exerciseId == exerciseId)) = []) :
    ProgressService.getExerciseProgress catalog stored exerciseId timeRange =
      .ok { exerciseId := exerciseId, exerciseName := ex.name, oneRepMax := 0,
            totalVolume := 0, averageWeight := 0, totalSets := 0, totalReps := 0,
            progressPercentage := 0 }
    ∧ (∀ (catalog2 : List Exercise) (stored2 : List Workout) (id2 : String)
          (tr2 : TimeRange), getExerciseById catalog2 id2 = none →
        ProgressService.getExerciseProgress catalog2 stored2 id2 tr2 =
          .error ( "Failed to get exercise progress: Exercise with ID " ++ id2 ++
            " not found")
        ∧ ProgressService.getStrengthProgression catalog2 stored2 id2 tr2 =
          .error ( "Failed to get strength progression: Exercise with ID " ++ id2 ++
            " not found"))
    ∧ (∀ (catalog3 : List Exercise) (stored3 : List Workout) (r : PersonalRecord),
        r ∈ ProgressService.getPersonalRecords catalog3 stored3 →
        r.exerciseName = recordName catalog3 r.exerciseId) := by
  refine ⟨?_, ?_, ?_⟩
  · unfold ProgressService.getExerciseProgress
    simp only [hfound, hnodata, List.isEmpty_nil, if_true]
  · intro catalog2 stored2 id2 tr2 hnone
    constructor
    · unfold ProgressService.getExerciseProgress
      simp only [hnone]
    · unfold ProgressService.getStrengthProgression
      simp only [hnone]
  · intro catalog3 stored3 r hr
    obtain ⟨p, hp, hpr⟩ := List.mem_map.mp hr
    have hinv := recordsFold_key_name catalog3 _ [] (fun q hq => by simp at hq) p hp
    rw [← hpr, hinv.2, hinv.1]

/-- Claim C8, witness for `analytics_degrade_needs_catalog_match` with the bench
catalog and an empty stored history. -/
theorem analytics_degrade_needs_catalog_match_witness :
    (getExerciseById benchCatalog "bench" = some
        { id := "bench", name := "Bench Press", muscleGroups := ["chest"],
          equipment := ["barbell"], category := "strength", instructions := "",
          imageUrl := "" }
      ∧ (ProgressService.getWorkoutsInTimeRange [] wideRange).filter
          (fun w => w.exercises.any (fun e => e.exerciseId == "bench")) = [])
    ∧ (ProgressService.getExerciseProgress benchCatalog [] "bench" wideRange =
        .ok { exerciseId := "bench", exerciseName := "Bench Press", oneRepMax := 0,
              totalVolume := 0, averageWeight := 0, totalSets := 0, totalReps := 0,
              progressPercentage := 0 }
      ∧ (∀ (catalog2 : List Exercise) (stored2 : List Workout) (id2 : String)
            (tr2 : TimeRange), getExerciseById catalog2 id2 = none →
          ProgressService.getExerciseProgress catalog2 stored2 id2 tr2 =
            .error ( "Failed to get exercise progress: Exercise with ID " ++ id2 ++
              " not found")
          ∧ ProgressService.getStrengthProgression catalog2 stored2 id2 tr2 =
            .error ( "Failed to get strength progression: Exercise with ID " ++ id2 ++
              " not found"))
      ∧ (∀ (catalog3 : List Exercise) (stored3 : List Workout) (r : PersonalRecord),
          r ∈ ProgressService.getPersonalRecords catalog3 stored3 →
          r.exerciseName = recordName catalog3 r.exerciseId)) :=
  ⟨⟨by decide, rfl⟩,
    analytics_degrade_needs_catalog_match benchCatalog [] "bench" wideRange
      { id := "bench", name := "Bench Press", muscleGroups := ["chest"],
        equipment := ["barbell"], category := "strength", instructions := "",
        imageUrl := "" } (by decide) rfl⟩

end Fitness
